import Mathlib

/-! ign-physics: capability verification and the double-pendulum step protocol.

A shallow embedding of

* `include/ignition/physics/detail/RequestFeatures.hh`
  (`RequestFeatures::Verify`, `MissingFeatureNames`, `From`), and
* `ignition-physics-dart/ODEDoublePendulum.cc`
  (`PrivateODEDoublePendulum` and `ODEDoublePendulum::Step`, `Write`).

Conventions.  Pointers are natural numbers; a nullable pointer is an `Option`.
`std::size_t` values are natural numbers.  `double` values are only stored and
copied by the code at hand, never computed with, so they are represented by
rationals.  Containers with unspecified iteration order (`std::unordered_map`,
`std::unordered_set`) are lists without repeated keys, the list order standing
for the iteration order.  An access that C++ leaves undefined (an index past
the end of a vector, a call through a null pointer) makes the embedded function
return a fault instead of a value.
-/

namespace ignition.physics

/-! ## `detail::InspectFeatures` -/

/-- A capability descriptor: the name of the feature and the features it requires. -/
inductive Feature where
  | mk (name : String) (required : List Feature) : Feature

/-- The name of a feature. -/
def Feature.name : Feature → String
  | .mk n _ => n

/-- The features a feature depends on. -/
def Feature.required : Feature → List Feature
  | .mk _ r => r

/-- Results of the two calls an implementation interface answers. -/
structure Implementation (σ Ref : Type) where
  /-- The call `InitiateEngine(engineID)`: the entity ID and the backend afterwards. -/
  InitiateEngine : σ → Nat → Nat × σ
  /-- The call `EngineRef(engineID)`: the shared reference to the engine object. -/
  EngineRef : σ → Nat → Ref

/-- An implementation handle (the plugin pointer handed to `RequestFeatures`):
the interfaces the backend declares, the generic implementation interface that
`QueryInterface` yields (`none` for a null pointer), and the backend's state. -/
structure Plugin (σ Ref : Type) where
  interfaces : List String
  implementation : Option (Implementation σ Ref)
  backend : σ

/-- The call `HasInterface` for the interface of one feature. -/
def Plugin.HasInterface {σ Ref : Type} (p : Plugin σ Ref) (n : String) : Bool :=
  p.interfaces.contains n

namespace detail.InspectFeatures

mutual
/-- Modelled from the spec: `detail::InspectFeatures::Verify` for one capability
(the header that defines it is not among the sources).  It checks the capability
against what the backend declares and, recursively, every required
sub-capability, stopping at the first failure. -/
def VerifyFeature {σ Ref : Type} (p : Plugin σ Ref) : Feature → Bool
  | .mk n r => p.HasInterface n && VerifyList p r
/-- Modelled from the spec: `detail::InspectFeatures::Verify` for a capability
set: every capability of the set is checked, with a short circuit on the first
failure. -/
def VerifyList {σ Ref : Type} (p : Plugin σ Ref) : List Feature → Bool
  | [] => true
  | f :: fs => VerifyFeature p f && VerifyList p fs
end

mutual
/-- Modelled from the spec: `detail::InspectFeatures::MissingNames` for one
capability.  No short circuit: the whole dependency graph is traversed, and a
capability is reported when the backend does not declare it or when one of its
sub-capabilities is unmet (the missing dependency is reported as well).  The
names accumulate in a set without repetition. -/
def MissingNamesFeature {σ Ref : Type} (p : Plugin σ Ref) : Feature → List String → List String
  | .mk n r, names =>
    let names1 := MissingNamesList p r names
    if p.HasInterface n && VerifyList p r then names1 else names1.insert n
/-- Modelled from the spec: `detail::InspectFeatures::MissingNames` for a
capability set: every capability is inspected, also after an earlier one
failed. -/
def MissingNamesList {σ Ref : Type} (p : Plugin σ Ref) : List Feature → List String → List String
  | [], names => names
  | f :: fs, names => MissingNamesList p fs (MissingNamesFeature p f names)
end

end detail.InspectFeatures

/-! ## `RequestFeatures` -/

/-- Modelled from the spec: the reserved entity ID that denotes "no entity"
(`INVALID_ENTITY_ID`, declared in a header that is not among the sources): the
largest `std::size_t`. -/
def INVALID_ENTITY_ID : Nat := 2 ^ 64 - 1

/-- The engine handle that `From` constructs: `Engine(pimpl, entityID, engineRef)`. -/
structure Engine (σ Ref : Type) where
  pimpl : Plugin σ Ref
  entityID : Nat
  engineRef : Ref

/-- The calls `From` makes, in the order it makes them. -/
inductive Call where
  | Verify
  | QueryInterface
  | InitiateEngine (engineID : Nat)
  | EngineRef (engineID : Nat)
  deriving DecidableEq, Repr

/-- What a call of `From` comes to: the returned pointer (`none` is `nullptr`),
or the fault of calling through a null interface pointer. -/
inductive Returned (α : Type) where
  | value (r : Option α)
  | nullDereference
  deriving DecidableEq, Repr

/-- The outcome of `From`: what it returns, the backend afterwards and the
calls made. -/
structure FromResult (σ Ref : Type) where
  returned : Returned (Engine σ Ref)
  backend : σ
  calls : List Call

namespace RequestFeatures

/-- The function `RequestFeatures::Verify`. -/
def Verify {σ Ref : Type} (Features : List Feature) (pimpl : Plugin σ Ref) : Bool :=
  detail.InspectFeatures.VerifyList pimpl Features

/-- The function `RequestFeatures::MissingFeatureNames`. -/
def MissingFeatureNames {σ Ref : Type} (Features : List Feature) (pimpl : Plugin σ Ref) :
    List String :=
  detail.InspectFeatures.MissingNamesList pimpl Features []

/-- The function `RequestFeatures::From`. -/
def From {σ Ref : Type} (Features : List Feature) (pimpl : Plugin σ Ref) (engineID : Nat) :
    FromResult σ Ref :=
  if !detail.InspectFeatures.VerifyList pimpl Features then
    ⟨.value none, pimpl.backend, [.Verify]⟩
  else
    match pimpl.implementation with
    | none => ⟨.nullDereference, pimpl.backend, [.Verify, .QueryInterface]⟩
    | some implBase =>
      let r := implBase.InitiateEngine pimpl.backend engineID
      let entityID := r.1
      if INVALID_ENTITY_ID == entityID then
        ⟨.value none, r.2, [.Verify, .QueryInterface, .InitiateEngine engineID]⟩
      else
        let engineRef := implBase.EngineRef r.2 engineID
        ⟨.value (some ⟨pimpl, entityID, engineRef⟩), r.2,
          [.Verify, .QueryInterface, .InitiateEngine engineID, .EngineRef engineID]⟩

end RequestFeatures

/-! ## The backend of `ODEDoublePendulum.cc` -/

namespace ode

/-- A pointer to a skeleton object (`SkeletonPtr`), never null. -/
abbrev SkeletonPtr := Nat

/-- A pointer to a body node. -/
abbrev BodyNodePtr := Nat

/-- The configuration of a skeleton (`Skeleton::Configuration`). -/
structure Configuration where
  mIndices : List Nat
  mPositions : List Rat
  mVelocities : List Rat
  mAccelerations : List Rat
  mForces : List Rat
  mCommands : List Rat
  deriving DecidableEq, Repr

/-- The world the backend steps, with the objects reachable from it: the
skeletons the world holds, in the order of its skeleton vector, and for every
skeleton object its name, its current configuration, its number of degrees of
freedom and its body nodes; for every body node whether it has been destroyed
(a weak pointer to it has expired). -/
structure World where
  skeletons : List SkeletonPtr
  name : SkeletonPtr → String
  configuration : SkeletonPtr → Configuration
  numDofs : SkeletonPtr → Nat
  bodyNodes : SkeletonPtr → List BodyNodePtr
  expired : BodyNodePtr → Bool

namespace World

/-- The call `world->getNumSkeletons()`. -/
def getNumSkeletons (w : World) : Nat := w.skeletons.length

/-- The call `world->getSkeleton(i)`. -/
def getSkeleton (w : World) (i : Nat) : Option SkeletonPtr := w.skeletons[i]?

/-- The call `world->getSkeleton(name)`: the skeleton of the world that has this
name, null when there is none. -/
def getSkeletonByName (w : World) (n : String) : Option SkeletonPtr :=
  w.skeletons.find? (fun s => w.name s == n)

/-- The call `world->removeSkeleton(skel)`: a null pointer and a skeleton that is
not in the world are ignored. -/
def removeSkeleton (w : World) : Option SkeletonPtr → World
  | none => w
  | some s => { w with skeletons := w.skeletons.erase s }

/-- The call `world->addSkeleton(skel)`: a skeleton already in the world is not
added again.  The world keeps the names of its skeletons distinct; the renaming
it performs when a name is taken is outside this embedding, whose theorems
assume distinct names where that matters. -/
def addSkeleton (w : World) (s : SkeletonPtr) : World :=
  if s ∈ w.skeletons then w else { w with skeletons := w.skeletons ++ [s] }

/-- The call `skel->setConfiguration(c)`. -/
def setConfiguration (w : World) (s : SkeletonPtr) (c : Configuration) : World :=
  { w with configuration := Function.update w.configuration s c }

/-- The call `skel->getConfiguration()`. -/
def getConfiguration (w : World) (s : SkeletonPtr) : Configuration := w.configuration s

/-- The call `skel->getConfiguration(CONFIG_POSITIONS)`: indices and positions only. -/
def getConfigurationPositions (w : World) (s : SkeletonPtr) : Configuration :=
  { mIndices := (w.configuration s).mIndices, mPositions := (w.configuration s).mPositions,
    mVelocities := [], mAccelerations := [], mForces := [], mCommands := [] }

/-- The names of the skeletons of the world are pairwise distinct. -/
def UniqueNames (w : World) : Prop := (w.skeletons.map w.name).Nodup

instance decidableUniqueNames (w : World) : Decidable w.UniqueNames :=
  inferInstanceAs (Decidable (w.skeletons.map w.name).Nodup)

end World

/-- The assignment `m[k] = v` on a map kept as a list of entries with distinct keys. -/
def assign {β : Type} : List (Nat × β) → Nat → β → List (Nat × β)
  | [], k, v => [(k, v)]
  | e :: rest, k, v => if e.1 = k then (k, v) :: rest else e :: assign rest k v

/-- The call `v.clear()` on a container. -/
def clear {α : Type} (_v : List α) : List α := []

/-- The call `v.resize(n)` on a vector of numbers: cut to `n` elements or filled
up with zeros. -/
def resize (v : List Rat) (n : Nat) : List Rat := v.take n ++ List.replicate (n - v.length) 0

/-- The call `m.erase(k)` on a map kept as a list of entries. -/
def eraseKey {β : Type} (m : List (Nat × β)) (k : Nat) : List (Nat × β) :=
  m.filter (fun e => e.1 ≠ k)

/-- The map of a `DartState`: skeleton pointer to configuration. -/
abbrev StateMap := List (SkeletonPtr × Configuration)

/-- The state snapshot kind (`DartState`). -/
structure DartState where
  states : StateMap
  deriving DecidableEq, Repr

/-- The input kind `GeneralizedParameters`. -/
structure GeneralizedParameters where
  dofs : List Nat
  forces : List Rat
  deriving DecidableEq, Repr

/-- The input kind `TimeStep`. -/
structure TimeStep where
  dt : Rat
  deriving DecidableEq, Repr

/-- The output kind `JointPositions`. -/
structure JointPositions where
  dofs : List Nat
  positions : List Rat
  deriving DecidableEq, Repr

/-- One entry of the world poses; its pose is never written by this backend. -/
structure WorldPose where
  body : Nat
  deriving DecidableEq, Repr

/-- The output kind `WorldPoses`. -/
structure WorldPoses where
  entries : List WorldPose
  deriving DecidableEq, Repr

/-- The state bag, as far as this backend reads and writes it. -/
structure State where
  dartState : Option DartState
  deriving DecidableEq, Repr

/-- The input bag, as far as this backend reads it. -/
structure Input where
  generalizedParameters : Option GeneralizedParameters
  timeStep : Option TimeStep
  deriving DecidableEq, Repr

/-- The output bag, as far as this backend writes it. -/
structure Output where
  jointPositions : Option JointPositions
  worldPoses : Option WorldPoses
  deriving DecidableEq, Repr

/-- The call `x.Get<DartState>()`: the entry, created empty when absent. -/
def State.get (x : State) : DartState := x.dartState.getD ⟨[]⟩

/-- The call `h.Get<JointPositions>()`. -/
def Output.getJointPositions (h : Output) : JointPositions := h.jointPositions.getD ⟨[], []⟩

/-- The call `h.Get<WorldPoses>()`. -/
def Output.getWorldPoses (h : Output) : WorldPoses := h.worldPoses.getD ⟨[]⟩

/-- Modelled from the spec: `ResetQueries` of the output bag (declared in a
header that is not among the sources): the bag is reset, no kind is left in it. -/
def Output.ResetQueries (_h : Output) : Output := ⟨none, none⟩

/-- An access outside the bounds of a vector. -/
inductive Fault where
  | outOfRange
  deriving DecidableEq, Repr

/-- The read `v[i]` of a vector. -/
def readAt {α : Type} (v : List α) (i : Nat) : Except Fault α :=
  match v[i]? with
  | some a => .ok a
  | none => .error .outOfRange

/-- The store `v[i] = a` into a vector. -/
def storeAt {α : Type} (v : List α) (i : Nat) (a : α) : Except Fault (List α) :=
  if i < v.length then .ok (v.set i a) else .error .outOfRange

/-- The class `PrivateODEDoublePendulum`; `robot` is the skeleton that
`Write(JointPositions&)` reads. -/
structure PrivateODEDoublePendulum where
  world : World
  robot : SkeletonPtr
  dt : Rat
  forces : List Rat
  mapToBodies : List (Nat × BodyNodePtr)
  lastId : Nat

namespace PrivateODEDoublePendulum

/-- The method `SetBodyMap`; its loops leave the world untouched. -/
def SetBodyMap (d : PrivateODEDoublePendulum) : PrivateODEDoublePendulum :=
  (List.range d.world.getNumSkeletons).foldl
    (fun d1 i =>
      match d.world.getSkeleton i with
      | some skel =>
        (List.range (d.world.bodyNodes skel).length).foldl
          (fun d2 j =>
            match (d.world.bodyNodes skel)[j]? with
            | some bn => { d2 with mapToBodies := assign d2.mapToBodies d2.lastId bn,
                                   lastId := d2.lastId + 1 }
            | none => d2) d1
      | none => d1) d

/-- The constructor: `lastId(0)`, `dt = 1e-3`, two zero forces, then `SetBodyMap`
on the world that has been built. -/
def new (world : World) (robot : SkeletonPtr) : PrivateODEDoublePendulum :=
  SetBodyMap ⟨world, robot, 1 / 1000, [0, 0], [], 0⟩

/-- The diagnostic `SetState` sends to `ignerr` when the state has no `DartState`. -/
def missingStateMessage : String :=
  "[ignition::physics::dart::ODEDoublePendulum::SetState] The state provided does not " ++
  "contain a DartState, which this plugins needs in order to go to a specified state!\n"

/-- The body of the first loop of `SetState`, for one entry of the snapshot. -/
def setStateEntry (w : World) (entry : SkeletonPtr × Configuration) : World :=
  let skel := entry.1
  let worldSkel := w.getSkeletonByName (w.name skel)
  let w1 := if some skel ≠ worldSkel then (w.removeSkeleton worldSkel).addSkeleton skel else w
  w1.setConfiguration skel entry.2

/-- The first loop of `SetState`: every entry of the snapshot is processed and
its skeleton recorded in `allSkels`. -/
def setStateEntries : World → List SkeletonPtr → StateMap → World × List SkeletonPtr
  | w, allSkels, [] => (w, allSkels)
  | w, allSkels, entry :: rest =>
    setStateEntries (setStateEntry w entry) (allSkels.insert entry.1) rest

/-- The second loop of `SetState`: the skeletons of the world that are not in
`allSkels`, collected in the set `removeSkels`. -/
def collectRemoveSkels (w : World) (allSkels : List SkeletonPtr) : List SkeletonPtr :=
  (List.range w.getNumSkeletons).foldl
    (fun removeSkels i =>
      match w.getSkeleton i with
      | some worldSkel =>
        if allSkels.count worldSkel = 0 then removeSkels.insert worldSkel else removeSkels
      | none => removeSkels) []

/-- The method `SetState`; the second component is what is written to `ignerr`. -/
def SetState (d : PrivateODEDoublePendulum) (x : State) : PrivateODEDoublePendulum × List String :=
  match x.dartState with
  | none => (d, [missingStateMessage])
  | some state =>
    let r := setStateEntries d.world [] state.states
    let removeSkels := collectRemoveSkels r.1 r.2
    ({ d with world := removeSkels.foldl (fun w skel => w.removeSkeleton (some skel)) r.1 }, [])

/-- The method `WriteState`. -/
def WriteState (d : PrivateODEDoublePendulum) (x : State) : State :=
  let state := x.get
  let cleared := clear state.states
  ⟨some ⟨(List.range d.world.getNumSkeletons).foldl
    (fun states i =>
      match d.world.getSkeleton i with
      | some skel => assign states skel (d.world.getConfiguration skel)
      | none => states) cleared⟩⟩

/-- The method `SetInputs`. -/
def SetInputs (d : PrivateODEDoublePendulum) (efforts : Option GeneralizedParameters) :
    Except Fault PrivateODEDoublePendulum :=
  match efforts with
  | none => .ok d
  | some e => do
    let dof0 ← readAt e.dofs 0
    let force0 ← readAt e.forces 0
    let forces1 ← storeAt d.forces dof0 force0
    let dof1 ← readAt e.dofs 1
    let force1 ← readAt e.forces 1
    let forces2 ← storeAt forces1 dof1 force1
    pure { d with forces := forces2 }

/-- The method `SetTimeStep`. -/
def SetTimeStep (d : PrivateODEDoublePendulum) (timeStep : Option TimeStep) :
    PrivateODEDoublePendulum :=
  match timeStep with
  | none => d
  | some t => { d with dt := t.dt }

/-- The method `Simulate`: `dWorldStep(world, dt)`, the step function of the
physics library being a parameter; the stored forces are not handed to it. -/
def Simulate (dWorldStep : World → Rat → World) (d : PrivateODEDoublePendulum) :
    PrivateODEDoublePendulum :=
  { d with world := dWorldStep d.world d.dt }

end PrivateODEDoublePendulum

namespace ODEDoublePendulum

open PrivateODEDoublePendulum

/-- The method `Write(JointPositions&)`. -/
def WriteJointPositions (d : PrivateODEDoublePendulum) (positions : JointPositions) :
    Except Fault JointPositions := do
  let configuration := d.world.getConfigurationPositions d.robot
  let dofs := configuration.mIndices
  let resized := resize (clear positions.positions) (d.world.numDofs d.robot)
  let filled ← dofs.foldlM
    (fun ps dof =>
      if dof < d.world.numDofs d.robot then do
        let v ← readAt configuration.mPositions dof
        storeAt ps dof v
      else pure ps) resized
  pure ⟨dofs, filled⟩

/-- The loop of `Write(WorldPoses&)` over the entries of `mapToBodies`: the
poses of the bodies that still exist, and the IDs of those that do not. -/
def collectWorldPoses (w : World) :
    List (Nat × BodyNodePtr) → List WorldPose × List Nat → List WorldPose × List Nat
  | [], acc => acc
  | entry :: rest, (entries, cleanup) =>
    let id := entry.1
    if w.expired entry.2 then collectWorldPoses w rest (entries, cleanup ++ [id])
    else collectWorldPoses w rest (entries ++ [⟨id⟩], cleanup)

/-- The method `Write(WorldPoses&)`; it also erases from `mapToBodies` the
entries whose body no longer exists. -/
def WriteWorldPoses (d : PrivateODEDoublePendulum) (poses : WorldPoses) :
    WorldPoses × PrivateODEDoublePendulum :=
  let r := collectWorldPoses d.world d.mapToBodies (clear poses.entries, [])
  (⟨r.1⟩, { d with mapToBodies := r.2.foldl eraseKey d.mapToBodies })

/-- Modelled from the spec: `WriteRequiredData` (declared in a header that is
not among the sources) populates the output kinds the step requires, here the
world poses, through the matching `Write`. -/
def WriteRequiredData (d : PrivateODEDoublePendulum) (h : Output) :
    Output × PrivateODEDoublePendulum :=
  let r := WriteWorldPoses d h.getWorldPoses
  ({ h with worldPoses := some r.1 }, r.2)

/-- The method `ODEDoublePendulum::Step`. -/
def Step (dWorldStep : World → Rat → World) (d : PrivateODEDoublePendulum)
    (h : Output) (x : State) (u : Input) :
    Except Fault (PrivateODEDoublePendulum × Output × State) := do
  let d1 ← d.SetInputs u.generalizedParameters
  let d2 := d1.SetTimeStep u.timeStep
  let d3 := d2.Simulate dWorldStep
  let x1 := d3.WriteState x
  let h1 := h.ResetQueries
  let r := WriteRequiredData d3 h1
  let positions ← WriteJointPositions r.2 r.1.getJointPositions
  pure (r.2, { r.1 with jointPositions := some positions }, x1)

/-- Consecutive calls of `Step`, one for each input of the list, each call on
the backend and the bags that the call before it left. -/
def Steps (dWorldStep : World → Rat → World) :
    List Input → PrivateODEDoublePendulum → Output → State →
    Except Fault (PrivateODEDoublePendulum × Output × State)
  | [], d, h, x => .ok (d, h, x)
  | u :: us, d, h, x =>
    match Step dWorldStep d h x u with
    | .ok r => Steps dWorldStep us r.1 r.2.1 r.2.2
    | .error f => .error f

/-- No body that the table of the backend refers to is destroyed in the course
of these calls of `Step`: in the world that each call leaves, none of the bodies
of the table has expired. -/
def noneDestroyed (dWorldStep : World → Rat → World) :
    List Input → PrivateODEDoublePendulum → Output → State → Bool
  | [], _, _, _ => true
  | u :: us, d, h, x =>
    match Step dWorldStep d h x u with
    | .ok r =>
      d.mapToBodies.all (fun e => !r.1.world.expired e.2) &&
        noneDestroyed dWorldStep us r.1 r.2.1 r.2.2
    | .error _ => true

/-- The method `ODEDoublePendulum::SetStateTo`. -/
def SetStateTo (d : PrivateODEDoublePendulum) (x : State) :
    PrivateODEDoublePendulum × List String :=
  d.SetState x

end ODEDoublePendulum

end ode

/-! ## Sample data -/

namespace Sample

/-- A capability set asking for stepping and for pose queries. -/
def steppingAndPoses : List Feature := [.mk "Stepping" [], .mk "PoseQuery" []]

/-- An implementation interface whose backend counts the engines it initiated;
world 7 cannot be initiated. -/
def counting : Implementation Nat String where
  InitiateEngine := fun s engineID => if engineID = 7 then (INVALID_ENTITY_ID, s) else (s, s + 1)
  EngineRef := fun s engineID => toString engineID ++ "@" ++ toString s

/-- A backend that implements stepping only. -/
def steppingOnly : Plugin Nat String := ⟨["Stepping"], some counting, 3⟩

/-- A backend that implements stepping and pose queries. -/
def complete : Plugin Nat String := ⟨["PoseQuery", "Stepping"], some counting, 3⟩

/-- A configuration of two degrees of freedom, both at position `x`. -/
def config (x : Rat) : ode.Configuration := ⟨[0, 1], [x, x], [0, 0], [], [], []⟩

/-- The names of the skeleton objects: 10 is "A", 11 is a clone of it and is
called "A" too, 20 is "B" and 30 is "C". -/
def names (p : ode.SkeletonPtr) : String :=
  if p = 10 then "A" else if p = 11 then "A" else if p = 20 then "B"
  else if p = 30 then "C" else "skeleton"

/-- A world that holds the skeletons "A" and "B". -/
def world : ode.World :=
  ⟨[10, 20], names, fun _ => config 0, fun _ => 2, fun p => [p + 1, p + 2], fun _ => false⟩

/-- The backend constructed on that world. -/
def pendulum : ode.PrivateODEDoublePendulum := ode.PrivateODEDoublePendulum.new world 10

/-- A snapshot of "A" and "C". -/
def snapshotAC : ode.DartState := ⟨[(10, config 1), (30, config 2)]⟩

/-- A snapshot of "A" and of its clone. -/
def snapshotClone : ode.DartState := ⟨[(10, config 1), (11, config 2)]⟩

/-- A snapshot of the clone of "A" alone. -/
def snapshotSwap : ode.DartState := ⟨[(11, config 2)]⟩

/-- A step function of the physics library: every position becomes the time
step, nothing else changes. -/
def advance (w : ode.World) (dt : Rat) : ode.World :=
  { w with configuration := fun p =>
      { (w.configuration p) with mPositions := (w.configuration p).mPositions.map (fun _ => dt) } }

/-- The sample world with body node 22 destroyed. -/
def wornWorld : ode.World := { world with expired := fun b => decide (b = 22) }

/-- A backend whose table refers to the destroyed body node 22 under the ID 3:
it was constructed on the sample world, and the body was destroyed since. -/
def worn : ode.PrivateODEDoublePendulum := { pendulum with world := wornWorld }

/-- An input of two forces, 5 at DOF 1 and 7 at DOF 0, without a time step. -/
def twoForces : ode.Input := ⟨some ⟨[1, 0], [5, 7]⟩, none⟩

/-- An input without forces that sets the time step to 1/2. -/
def halfStep : ode.Input := ⟨none, some ⟨1 / 2⟩⟩

/-- What `Step` returns on the worn backend for the input of two forces. -/
def wornStepped : ode.PrivateODEDoublePendulum × ode.Output × ode.State :=
  ((ode.ODEDoublePendulum.Step advance worn ⟨none, none⟩ ⟨none⟩ twoForces).toOption).getD
    (worn, ⟨none, none⟩, ⟨none⟩)

/-- What two calls of `Step` return on the sample backend, the first with the
two forces and the second with the time step. -/
def twiceStepped : ode.PrivateODEDoublePendulum × ode.Output × ode.State :=
  ((ode.ODEDoublePendulum.Steps advance [twoForces, halfStep] pendulum ⟨none, none⟩
      ⟨none⟩).toOption).getD (pendulum, ⟨none, none⟩, ⟨none⟩)

/-- A backend that declares stepping and pose queries and does not expose the
generic implementation interface. -/
def bare : Plugin Nat String := ⟨["PoseQuery", "Stepping"], none, 3⟩

/-- A backend whose robot has two degrees of freedom and a configuration that
lists the indices 0, 1 and 5. -/
def odd : ode.PrivateODEDoublePendulum :=
  { pendulum with world :=
      { world with configuration := fun _ => ⟨[0, 1, 5], [3, 4, 6], [], [], [], []⟩ } }

/-- What `Step` returns on the sample backend for the input of a time step, the
bags holding leftovers of an earlier step. -/
def halfStepped : ode.PrivateODEDoublePendulum × ode.Output × ode.State :=
  ((ode.ODEDoublePendulum.Step advance pendulum ⟨some ⟨[9], [9]⟩, some ⟨[⟨9⟩]⟩⟩
      ⟨some ⟨[(99, config 9)]⟩⟩ halfStep).toOption).getD
    (pendulum, ⟨none, none⟩, ⟨none⟩)

end Sample

/-! ## Theorems on `RequestFeatures` -/

namespace detail.InspectFeatures

theorem insert_ne_nil (n : String) (l : List String) : l.insert n ≠ [] := by
  intro h
  have hmem : n ∈ l.insert n := List.mem_insert_self n l
  rw [h] at hmem
  exact List.not_mem_nil _ hmem

mutual
theorem missingNamesFeature_eq_nil {σ Ref : Type} (p : Plugin σ Ref) :
    ∀ (f : Feature) (names : List String),
      MissingNamesFeature p f names = [] ↔ names = [] ∧ VerifyFeature p f = true
  | .mk n r, names => by
    have ih := missingNamesList_eq_nil p r names
    simp only [MissingNamesFeature, VerifyFeature]
    by_cases hc : (p.HasInterface n && VerifyList p r) = true
    · rw [if_pos hc, ih]
      simp only [Bool.and_eq_true] at hc
      simp [hc.1, hc.2]
    · rw [if_neg hc]
      constructor
      · intro h
        exact absurd h (insert_ne_nil _ _)
      · intro h
        exact absurd h.2 hc
theorem missingNamesList_eq_nil {σ Ref : Type} (p : Plugin σ Ref) :
    ∀ (fs : List Feature) (names : List String),
      MissingNamesList p fs names = [] ↔ names = [] ∧ VerifyList p fs = true
  | [], names => by simp [MissingNamesList, VerifyList]
  | f :: fs, names => by
    have ih1 := missingNamesFeature_eq_nil p f names
    have ih2 := missingNamesList_eq_nil p fs (MissingNamesFeature p f names)
    simp only [MissingNamesList, VerifyList, Bool.and_eq_true]
    rw [ih2, ih1]
    tauto
end

end detail.InspectFeatures

namespace RequestFeatures

/-- C1: when `Verify` is false on the handle, `From` returns `nullptr`, and it
has then neither resolved the implementation interface nor initiated an engine:
the only call made is the verification and the backend is as it was. -/
theorem From_of_not_Verify {σ Ref : Type} (Features : List Feature) (pimpl : Plugin σ Ref)
    (engineID : Nat) (h : Verify Features pimpl = false) :
    (From Features pimpl engineID).returned = .value none ∧
    (From Features pimpl engineID).calls = [.Verify] ∧
    Call.QueryInterface ∉ (From Features pimpl engineID).calls ∧
    (∀ id, Call.InitiateEngine id ∉ (From Features pimpl engineID).calls) ∧
    (From Features pimpl engineID).backend = pimpl.backend := by
  unfold Verify at h
  simp [From, h]

/-- Witness of C1: a backend with stepping only, asked for stepping and poses. -/
theorem From_of_not_Verify_witness :
    Verify Sample.steppingAndPoses Sample.steppingOnly = false ∧
    (From Sample.steppingAndPoses Sample.steppingOnly 0).returned = .value none ∧
    (From Sample.steppingAndPoses Sample.steppingOnly 0).calls = [.Verify] ∧
    Call.QueryInterface ∉ (From Sample.steppingAndPoses Sample.steppingOnly 0).calls ∧
    (∀ id, Call.InitiateEngine id ∉ (From Sample.steppingAndPoses Sample.steppingOnly 0).calls) ∧
    (From Sample.steppingAndPoses Sample.steppingOnly 0).backend = Sample.steppingOnly.backend :=
  ⟨by decide, From_of_not_Verify Sample.steppingAndPoses Sample.steppingOnly 0 (by decide)⟩

/-- C2: when `Verify` is true on the handle and `InitiateEngine` of the
backend's implementation interface returns an ID other than the invalid
sentinel, `From` returns an engine handle, built from the handle itself, the ID
that `InitiateEngine` returned and the backend's `EngineRef` for that world ID. -/
theorem From_of_Verify {σ Ref : Type} (Features : List Feature) (pimpl : Plugin σ Ref)
    (engineID : Nat) (implBase : Implementation σ Ref)
    (hv : Verify Features pimpl = true)
    (hi : pimpl.implementation = some implBase)
    (hid : (implBase.InitiateEngine pimpl.backend engineID).1 ≠ INVALID_ENTITY_ID) :
    (From Features pimpl engineID).returned =
      .value (some ⟨pimpl, (implBase.InitiateEngine pimpl.backend engineID).1,
        implBase.EngineRef (implBase.InitiateEngine pimpl.backend engineID).2 engineID⟩) := by
  unfold Verify at hv
  have hid2 : ¬ INVALID_ENTITY_ID = (implBase.InitiateEngine pimpl.backend engineID).1 :=
    fun e => hid e.symm
  simp [From, hv, hi, hid2]

/-- Witness of C2: the complete backend initiates world 0 as entity 3. -/
theorem From_of_Verify_witness :
    Verify Sample.steppingAndPoses Sample.complete = true ∧
    Sample.complete.implementation = some Sample.counting ∧
    (Sample.counting.InitiateEngine Sample.complete.backend 0).1 ≠ INVALID_ENTITY_ID ∧
    (From Sample.steppingAndPoses Sample.complete 0).returned =
      .value (some ⟨Sample.complete, (Sample.counting.InitiateEngine Sample.complete.backend 0).1,
        Sample.counting.EngineRef (Sample.counting.InitiateEngine Sample.complete.backend 0).2 0⟩) :=
  ⟨by decide, rfl, by decide,
    From_of_Verify Sample.steppingAndPoses Sample.complete 0 Sample.counting
      (by decide) rfl (by decide)⟩

/-- C3: when `InitiateEngine` of the backend returns the invalid sentinel, `From`
returns `nullptr`, whether `Verify` is true or not; no engine is constructed and
`EngineRef` is not called. -/
theorem From_of_invalid_entity {σ Ref : Type} (Features : List Feature) (pimpl : Plugin σ Ref)
    (engineID : Nat) (implBase : Implementation σ Ref)
    (hi : pimpl.implementation = some implBase)
    (hid : (implBase.InitiateEngine pimpl.backend engineID).1 = INVALID_ENTITY_ID) :
    (From Features pimpl engineID).returned = .value none ∧
    (∀ id, Call.EngineRef id ∉ (From Features pimpl engineID).calls) := by
  cases hv : detail.InspectFeatures.VerifyList pimpl Features <;>
    simp [From, hv, hi, hid]

/-- Witness of C3: the complete backend passes `Verify` and cannot initiate world 7. -/
theorem From_of_invalid_entity_witness :
    Verify Sample.steppingAndPoses Sample.complete = true ∧
    Sample.complete.implementation = some Sample.counting ∧
    (Sample.counting.InitiateEngine Sample.complete.backend 7).1 = INVALID_ENTITY_ID ∧
    (From Sample.steppingAndPoses Sample.complete 7).returned = .value none ∧
    (∀ id, Call.EngineRef id ∉ (From Sample.steppingAndPoses Sample.complete 7).calls) :=
  ⟨by decide, rfl, by decide,
    From_of_invalid_entity Sample.steppingAndPoses Sample.complete 7 Sample.counting
      rfl (by decide)⟩

/-- C4: for every handle and capability set, `MissingFeatureNames` returns the
empty set exactly when `Verify` returns true. -/
theorem MissingFeatureNames_eq_nil_iff {σ Ref : Type} (Features : List Feature)
    (pimpl : Plugin σ Ref) :
    MissingFeatureNames Features pimpl = [] ↔ Verify Features pimpl = true := by
  unfold MissingFeatureNames Verify
  rw [detail.InspectFeatures.missingNamesList_eq_nil]
  simp

end RequestFeatures

/-! ## Theorems on the backend -/

namespace ode

theorem foldl_range_getElem {α β : Type} (f : β → α → β) (l : List α) (init : β) :
    (List.range l.length).foldl
      (fun acc i => match l[i]? with
        | some a => f acc a
        | none => acc) init = l.foldl f init := by
  induction l using List.reverseRecOn generalizing init with
  | nil => rfl
  | append_singleton l a ih =>
    rw [List.length_append, List.length_singleton, List.range_succ, List.foldl_append,
      List.foldl_append]
    have h1 : (List.range l.length).foldl
        (fun acc i => match (l ++ [a])[i]? with
          | some a => f acc a
          | none => acc) init = l.foldl f init := by
      rw [← ih init]
      apply List.foldl_ext
      intro acc i hi
      rw [List.mem_range] at hi
      rw [List.getElem?_append_left hi]
    rw [h1]
    simp

namespace World

theorem getSkeletonByName_mem {w : World} {n : String} {s : SkeletonPtr}
    (h : w.getSkeletonByName n = some s) : s ∈ w.skeletons :=
  List.mem_of_find?_eq_some h

theorem getSkeletonByName_name {w : World} {n : String} {s : SkeletonPtr}
    (h : w.getSkeletonByName n = some s) : w.name s = n := by
  have := List.find?_some h
  simpa using this

theorem find_name_of_nodup (name : SkeletonPtr → String) :
    ∀ (l : List SkeletonPtr), (l.map name).Nodup → ∀ p ∈ l,
      l.find? (fun s => name s == name p) = some p
  | [], _, p, hp => absurd hp (List.not_mem_nil p)
  | a :: l, hnd, p, hp => by
    rw [List.map_cons, List.nodup_cons] at hnd
    rcases List.mem_cons.mp hp with rfl | hp2
    · simp
    · have hne : name a ≠ name p := by
        intro e
        exact hnd.1 (e ▸ List.mem_map_of_mem name hp2)
      rw [List.find?_cons_of_neg]
      · exact find_name_of_nodup name l hnd.2 p hp2
      · simpa using hne

theorem getSkeletonByName_self {w : World} (hw : w.UniqueNames) {p : SkeletonPtr}
    (hp : p ∈ w.skeletons) : w.getSkeletonByName (w.name p) = some p :=
  find_name_of_nodup w.name w.skeletons hw p hp

theorem UniqueNames.nodup {w : World} (hw : w.UniqueNames) : w.skeletons.Nodup :=
  List.Nodup.of_map w.name hw

end World

namespace PrivateODEDoublePendulum

theorem setStateEntry_eq (w : World) (e : SkeletonPtr × Configuration) :
    setStateEntry w e =
      { w with skeletons := (setStateEntry w e).skeletons,
               configuration := Function.update w.configuration e.1 e.2 } := by
  unfold setStateEntry World.setConfiguration World.addSkeleton World.removeSkeleton
  dsimp only
  cases w.getSkeletonByName (w.name e.1) <;> dsimp only <;> split_ifs <;> rfl

theorem setStateEntry_name (w : World) (e : SkeletonPtr × Configuration) :
    (setStateEntry w e).name = w.name := by
  rw [setStateEntry_eq]

theorem setStateEntry_configuration (w : World) (e : SkeletonPtr × Configuration) :
    (setStateEntry w e).configuration = Function.update w.configuration e.1 e.2 := by
  rw [setStateEntry_eq]

/-- The skeleton of the entry is in the world after the loop body. -/
theorem setStateEntry_mem_self (w : World) (e : SkeletonPtr × Configuration) :
    e.1 ∈ (setStateEntry w e).skeletons := by
  unfold setStateEntry World.setConfiguration World.addSkeleton
  dsimp only
  by_cases h : some e.1 = w.getSkeletonByName (w.name e.1)
  · rw [if_neg (not_not.mpr h)]
    exact World.getSkeletonByName_mem h.symm
  · rw [if_pos h]
    split_ifs with h2
    · exact h2
    · exact List.mem_append_right _ (List.mem_singleton_self _)

/-- A skeleton of another name stays in the world through the loop body. -/
theorem setStateEntry_mem_of_name_ne (w : World) (e : SkeletonPtr × Configuration)
    (p : SkeletonPtr) (hp : p ∈ w.skeletons) (hne : w.name e.1 ≠ w.name p) :
    p ∈ (setStateEntry w e).skeletons := by
  unfold setStateEntry World.setConfiguration World.addSkeleton
  dsimp only
  by_cases h : some e.1 = w.getSkeletonByName (w.name e.1)
  · rw [if_neg (not_not.mpr h)]
    exact hp
  · rw [if_pos h]
    have h1 : p ∈ (w.removeSkeleton (w.getSkeletonByName (w.name e.1))).skeletons := by
      cases hs : w.getSkeletonByName (w.name e.1) with
      | none => exact hp
      | some s =>
        have hn := World.getSkeletonByName_name hs
        have hps : p ≠ s := by
          rintro rfl
          exact hne hn.symm
        exact (List.mem_erase_of_ne hps).mpr hp
    split_ifs with h2
    · exact h1
    · exact List.mem_append_left _ h1

/-- The loop body adds no skeleton other than the one of the entry. -/
theorem setStateEntry_mem_imp (w : World) (e : SkeletonPtr × Configuration)
    (p : SkeletonPtr) (hp : p ∈ (setStateEntry w e).skeletons) :
    p ∈ w.skeletons ∨ p = e.1 := by
  unfold setStateEntry World.setConfiguration World.addSkeleton at hp
  dsimp only at hp
  by_cases h : some e.1 = w.getSkeletonByName (w.name e.1)
  · rw [if_neg (not_not.mpr h)] at hp
    exact Or.inl hp
  · rw [if_pos h] at hp
    have h1 : ∀ q, q ∈ (w.removeSkeleton (w.getSkeletonByName (w.name e.1))).skeletons →
        q ∈ w.skeletons := by
      intro q hq
      cases hs : w.getSkeletonByName (w.name e.1) with
      | none => rw [hs] at hq; exact hq
      | some s => rw [hs] at hq; exact List.mem_of_mem_erase hq
    split_ifs at hp with h2
    · exact Or.inl (h1 p hp)
    · rcases List.mem_append.mp hp with h3 | h3
      · exact Or.inl (h1 p h3)
      · exact Or.inr (List.mem_singleton.mp h3)

/-- The loop body keeps the skeleton vector free of repetitions. -/
theorem setStateEntry_nodup (w : World) (e : SkeletonPtr × Configuration)
    (hw : w.skeletons.Nodup) : (setStateEntry w e).skeletons.Nodup := by
  unfold setStateEntry World.setConfiguration World.addSkeleton
  dsimp only
  by_cases h : some e.1 = w.getSkeletonByName (w.name e.1)
  · rw [if_neg (not_not.mpr h)]
    exact hw
  · rw [if_pos h]
    have h1 : (w.removeSkeleton (w.getSkeletonByName (w.name e.1))).skeletons.Nodup := by
      cases hs : w.getSkeletonByName (w.name e.1) with
      | none => exact hw
      | some s => exact hw.erase s
    split_ifs with h2
    · exact h1
    · exact List.Nodup.append h1 (List.nodup_singleton _)
        (by
          intro a ha hb
          rw [List.mem_singleton] at hb
          exact h2 (hb ▸ ha))


theorem setStateEntries_name : ∀ (snap : StateMap) (w : World) (all : List SkeletonPtr),
    (setStateEntries w all snap).1.name = w.name
  | [], _, _ => rfl
  | e :: rest, w, all => by
    rw [setStateEntries, setStateEntries_name rest, setStateEntry_name]

theorem setStateEntries_nodup : ∀ (snap : StateMap) (w : World) (all : List SkeletonPtr),
    w.skeletons.Nodup → (setStateEntries w all snap).1.skeletons.Nodup
  | [], _, _, h => h
  | e :: rest, w, all, h => by
    rw [setStateEntries]
    exact setStateEntries_nodup rest _ _ (setStateEntry_nodup w e h)

/-- The set `allSkels` after the first loop: what it held before and the
skeletons of the snapshot. -/
theorem setStateEntries_allSkels : ∀ (snap : StateMap) (w : World) (all : List SkeletonPtr)
    (p : SkeletonPtr),
    p ∈ (setStateEntries w all snap).2 ↔ p ∈ all ∨ p ∈ snap.map Prod.fst
  | [], _, _, _ => by simp [setStateEntries]
  | e :: rest, w, all, p => by
    rw [setStateEntries, setStateEntries_allSkels rest, List.mem_insert_iff, List.map_cons,
      List.mem_cons]
    tauto

/-- A skeleton whose name no entry of the snapshot carries stays in the world
through the first loop. -/
theorem setStateEntries_mem_of_name_ne : ∀ (snap : StateMap) (w : World)
    (all : List SkeletonPtr) (p : SkeletonPtr), p ∈ w.skeletons →
    (∀ e ∈ snap, w.name e.1 ≠ w.name p) → p ∈ (setStateEntries w all snap).1.skeletons
  | [], _, _, _, hp, _ => hp
  | e :: rest, w, all, p, hp, hne => by
    rw [setStateEntries]
    apply setStateEntries_mem_of_name_ne rest
    · exact setStateEntry_mem_of_name_ne w e p hp (hne e (List.mem_cons_self _ _))
    · intro e2 he2
      rw [setStateEntry_name]
      exact hne e2 (List.mem_cons_of_mem _ he2)

/-- When the skeletons of the snapshot have pairwise distinct names, each of
them is in the world after the first loop. -/
theorem setStateEntries_mem_key : ∀ (snap : StateMap) (w : World) (all : List SkeletonPtr),
    (snap.map (fun e => w.name e.1)).Nodup →
    ∀ e ∈ snap, e.1 ∈ (setStateEntries w all snap).1.skeletons
  | [], _, _, _, e, he => absurd he (List.not_mem_nil e)
  | e0 :: rest, w, all, hn, e, he => by
    rw [List.map_cons, List.nodup_cons] at hn
    rw [setStateEntries]
    rcases List.mem_cons.mp he with rfl | he2
    · apply setStateEntries_mem_of_name_ne rest _ _ _ (setStateEntry_mem_self w e)
      intro e2 he2 heq
      rw [setStateEntry_name] at heq
      apply hn.1
      rw [← heq]
      exact List.mem_map_of_mem (fun e => w.name e.1) he2
    · apply setStateEntries_mem_key rest
      · rw [setStateEntry_name]
        exact hn.2
      · exact he2

/-- The first loop brings no skeleton into the world that is not in the snapshot. -/
theorem setStateEntries_mem_imp : ∀ (snap : StateMap) (w : World) (all : List SkeletonPtr)
    (p : SkeletonPtr), p ∈ (setStateEntries w all snap).1.skeletons →
    p ∈ w.skeletons ∨ p ∈ snap.map Prod.fst
  | [], _, _, _, hp => Or.inl hp
  | e :: rest, w, all, p, hp => by
    rw [setStateEntries] at hp
    rcases setStateEntries_mem_imp rest _ _ p hp with h | h
    · rcases setStateEntry_mem_imp w e p h with h2 | h2
      · exact Or.inl h2
      · exact Or.inr (h2 ▸ List.mem_map_of_mem Prod.fst (List.mem_cons_self _ _))
    · exact Or.inr (by
        rw [List.map_cons]
        exact List.mem_cons_of_mem _ h)

/-- The configurations after the first loop: a skeleton outside the snapshot
keeps its configuration. -/
theorem setStateEntries_configuration_of_not_mem : ∀ (snap : StateMap) (w : World)
    (all : List SkeletonPtr) (p : SkeletonPtr), p ∉ snap.map Prod.fst →
    (setStateEntries w all snap).1.configuration p = w.configuration p
  | [], _, _, _, _ => rfl
  | e :: rest, w, all, p, hp => by
    rw [List.map_cons, List.mem_cons, not_or] at hp
    rw [setStateEntries, setStateEntries_configuration_of_not_mem rest _ _ p hp.2,
      setStateEntry_configuration, Function.update_noteq hp.1]

/-- The configurations after the first loop: a skeleton of the snapshot has the
configuration recorded for it. -/
theorem setStateEntries_configuration_of_mem : ∀ (snap : StateMap) (w : World)
    (all : List SkeletonPtr), (snap.map Prod.fst).Nodup → ∀ e ∈ snap,
    (setStateEntries w all snap).1.configuration e.1 = e.2
  | [], _, _, _, e, he => absurd he (List.not_mem_nil e)
  | e0 :: rest, w, all, hk, e, he => by
    rw [List.map_cons, List.nodup_cons] at hk
    rw [setStateEntries]
    rcases List.mem_cons.mp he with rfl | he2
    · rw [setStateEntries_configuration_of_not_mem rest _ _ _ hk.1, setStateEntry_configuration,
        Function.update_same]
    · exact setStateEntries_configuration_of_mem rest _ _ hk.2 e he2

/-- The second loop, as a traversal of the skeleton vector. -/
theorem collectRemoveSkels_eq (w : World) (all : List SkeletonPtr) :
    collectRemoveSkels w all =
      w.skeletons.foldl
        (fun removeSkels worldSkel =>
          if all.count worldSkel = 0 then removeSkels.insert worldSkel else removeSkels) [] := by
  unfold collectRemoveSkels World.getNumSkeletons World.getSkeleton
  rw [← foldl_range_getElem
    (fun removeSkels worldSkel =>
      if all.count worldSkel = 0 then removeSkels.insert worldSkel else removeSkels)
    w.skeletons []]
  apply List.foldl_ext
  intro acc i _
  cases w.skeletons[i]? <;> rfl

theorem mem_foldl_insert_if (all : List SkeletonPtr) : ∀ (l acc : List SkeletonPtr)
    (p : SkeletonPtr),
    p ∈ l.foldl (fun removeSkels worldSkel =>
          if all.count worldSkel = 0 then removeSkels.insert worldSkel else removeSkels) acc ↔
      p ∈ acc ∨ (p ∈ l ∧ p ∉ all)
  | [], acc, p => by simp
  | a :: l, acc, p => by
    rw [List.foldl_cons, mem_foldl_insert_if all l]
    by_cases h : all.count a = 0
    · rw [if_pos h, List.mem_insert_iff, List.mem_cons]
      have ha : a ∉ all := List.count_eq_zero.mp h
      constructor
      · rintro ((rfl | h1) | h1)
        · exact Or.inr ⟨Or.inl rfl, ha⟩
        · exact Or.inl h1
        · exact Or.inr ⟨Or.inr h1.1, h1.2⟩
      · rintro (h1 | ⟨rfl | h1, h2⟩)
        · exact Or.inl (Or.inr h1)
        · exact Or.inl (Or.inl rfl)
        · exact Or.inr ⟨h1, h2⟩
    · rw [if_neg h, List.mem_cons]
      have ha : a ∈ all := by
        by_contra hc
        exact h (List.count_eq_zero.mpr hc)
      constructor
      · rintro (h1 | h1)
        · exact Or.inl h1
        · exact Or.inr ⟨Or.inr h1.1, h1.2⟩
      · rintro (h1 | ⟨rfl | h1, h2⟩)
        · exact Or.inl h1
        · exact absurd ha h2
        · exact Or.inr ⟨h1, h2⟩

/-- The set `removeSkels`: the skeletons of the world that are not in `allSkels`. -/
theorem mem_collectRemoveSkels (w : World) (all : List SkeletonPtr) (p : SkeletonPtr) :
    p ∈ collectRemoveSkels w all ↔ p ∈ w.skeletons ∧ p ∉ all := by
  rw [collectRemoveSkels_eq, mem_foldl_insert_if]
  simp

/-- The third loop changes the skeleton vector only. -/
theorem foldl_removeSkeleton_eq : ∀ (rs : List SkeletonPtr) (w : World),
    rs.foldl (fun w skel => w.removeSkeleton (some skel)) w =
      { w with skeletons := rs.foldl List.erase w.skeletons }
  | [], _ => rfl
  | r :: rs, w => by
    rw [List.foldl_cons, foldl_removeSkeleton_eq rs]
    rfl

theorem mem_foldl_erase : ∀ (rs l : List SkeletonPtr), l.Nodup → ∀ p,
    p ∈ rs.foldl List.erase l ↔ p ∈ l ∧ p ∉ rs
  | [], l, _, p => by simp
  | r :: rs, l, hl, p => by
    rw [List.foldl_cons, mem_foldl_erase rs _ (hl.erase r), hl.mem_erase_iff, List.mem_cons]
    tauto

theorem nodup_foldl_erase : ∀ (rs l : List SkeletonPtr), l.Nodup → (rs.foldl List.erase l).Nodup
  | [], _, hl => hl
  | r :: rs, l, hl => by
    rw [List.foldl_cons]
    exact nodup_foldl_erase rs _ (hl.erase r)

/-- The skeletons in the world after `SetState`, when the skeleton vector had no
repetition: those of the snapshot that the first loop left in the world. -/
theorem mem_SetState_skeletons (d : PrivateODEDoublePendulum) (state : DartState)
    (hw : d.world.skeletons.Nodup) (p : SkeletonPtr) :
    p ∈ (d.SetState ⟨some state⟩).1.world.skeletons ↔
      p ∈ (setStateEntries d.world [] state.states).1.skeletons ∧
        p ∈ state.states.map Prod.fst := by
  unfold SetState
  dsimp only
  rw [foldl_removeSkeleton_eq]
  dsimp only
  rw [mem_foldl_erase _ _ (setStateEntries_nodup _ _ _ hw), mem_collectRemoveSkels,
    setStateEntries_allSkels]
  simp only [List.not_mem_nil, false_or]
  tauto

end PrivateODEDoublePendulum
end ode

namespace ode

theorem mem_assign {β : Type} : ∀ (m : List (Nat × β)) (k : Nat) (v : β) (e : Nat × β),
    e ∈ assign m k v → e = (k, v) ∨ e ∈ m
  | [], k, v, e, h => Or.inl (List.mem_singleton.mp h)
  | e0 :: rest, k, v, e, h => by
    unfold assign at h
    split_ifs at h with hk
    · rcases List.mem_cons.mp h with h1 | h1
      · exact Or.inl h1
      · exact Or.inr (List.mem_cons_of_mem _ h1)
    · rcases List.mem_cons.mp h with h1 | h1
      · exact Or.inr (h1 ▸ List.mem_cons_self _ _)
      · rcases mem_assign rest k v e h1 with h2 | h2
        · exact Or.inl h2
        · exact Or.inr (List.mem_cons_of_mem _ h2)

theorem keys_assign {β : Type} : ∀ (m : List (Nat × β)) (k : Nat) (v : β) (p : Nat),
    p ∈ (assign m k v).map Prod.fst ↔ p = k ∨ p ∈ m.map Prod.fst
  | [], k, v, p => by simp [assign]
  | e0 :: rest, k, v, p => by
    unfold assign
    split_ifs with hk
    · simp only [List.map_cons, List.mem_cons]
      rw [hk]
      tauto
    · simp only [List.map_cons, List.mem_cons]
      rw [keys_assign rest k v p]
      tauto

theorem nodup_keys_assign {β : Type} : ∀ (m : List (Nat × β)) (k : Nat) (v : β),
    (m.map Prod.fst).Nodup → ((assign m k v).map Prod.fst).Nodup
  | [], k, v, _ => by simp [assign]
  | e0 :: rest, k, v, h => by
    unfold assign
    rw [List.map_cons, List.nodup_cons] at h
    split_ifs with hk
    · rw [List.map_cons, List.nodup_cons]
      exact ⟨hk ▸ h.1, h.2⟩
    · rw [List.map_cons, List.nodup_cons]
      refine ⟨?_, nodup_keys_assign rest k v h.2⟩
      rw [keys_assign]
      rintro (h1 | h1)
      · exact hk h1
      · exact h.1 h1

namespace PrivateODEDoublePendulum

/-- The loop of `WriteState`, as a traversal of the skeleton vector. -/
theorem WriteState_eq (d : PrivateODEDoublePendulum) (x : State) :
    d.WriteState x =
      ⟨some ⟨d.world.skeletons.foldl
        (fun states skel => assign states skel (d.world.getConfiguration skel)) []⟩⟩ := by
  unfold WriteState World.getNumSkeletons World.getSkeleton clear
  dsimp only
  rw [← foldl_range_getElem
    (fun states skel => assign states skel (d.world.getConfiguration skel)) d.world.skeletons []]
  congr 3
  apply List.foldl_ext
  intro acc i _
  cases d.world.skeletons[i]? <;> rfl

theorem foldl_assign_keys (w : World) : ∀ (l : List SkeletonPtr) (acc : StateMap)
    (p : SkeletonPtr),
    p ∈ (l.foldl (fun states skel => assign states skel (w.getConfiguration skel)) acc).map
        Prod.fst ↔ p ∈ acc.map Prod.fst ∨ p ∈ l
  | [], acc, p => by simp
  | a :: l, acc, p => by
    rw [List.foldl_cons, foldl_assign_keys w l, keys_assign, List.mem_cons]
    tauto

theorem foldl_assign_nodup (w : World) : ∀ (l : List SkeletonPtr) (acc : StateMap),
    (acc.map Prod.fst).Nodup →
    ((l.foldl (fun states skel => assign states skel (w.getConfiguration skel)) acc).map
        Prod.fst).Nodup
  | [], _, h => h
  | a :: l, acc, h => by
    rw [List.foldl_cons]
    exact foldl_assign_nodup w l _ (nodup_keys_assign acc a _ h)

theorem foldl_assign_values (w : World) : ∀ (l : List SkeletonPtr) (acc : StateMap),
    (∀ e ∈ acc, e.2 = w.configuration e.1) →
    ∀ e ∈ l.foldl (fun states skel => assign states skel (w.getConfiguration skel)) acc,
      e.2 = w.configuration e.1
  | [], _, h => h
  | a :: l, acc, h => by
    rw [List.foldl_cons]
    apply foldl_assign_values w l
    intro e he
    rcases mem_assign acc a _ e he with h1 | h1
    · rw [h1]
      rfl
    · exact h e h1

/-- Processing an entry that records a skeleton of the world under its current
configuration changes nothing, the names of the world being distinct. -/
theorem setStateEntry_self (w : World) (hw : w.UniqueNames) (e : SkeletonPtr × Configuration)
    (hm : e.1 ∈ w.skeletons) (hc : e.2 = w.configuration e.1) : setStateEntry w e = w := by
  unfold setStateEntry World.setConfiguration
  dsimp only
  rw [World.getSkeletonByName_self hw hm, if_neg (not_not.mpr rfl), hc,
    Function.update_eq_self]

theorem setStateEntries_self (w : World) (hw : w.UniqueNames) : ∀ (snap : StateMap)
    (all : List SkeletonPtr),
    (∀ e ∈ snap, e.1 ∈ w.skeletons ∧ e.2 = w.configuration e.1) →
    (setStateEntries w all snap).1 = w
  | [], _, _ => rfl
  | e :: rest, all, h => by
    have he := h e (List.mem_cons_self _ _)
    rw [setStateEntries, setStateEntry_self w hw e he.1 he.2]
    exact setStateEntries_self w hw rest _ (fun e2 he2 => h e2 (List.mem_cons_of_mem _ he2))

/-- A snapshot that records every skeleton of the world, each under its current
configuration, is restored without any change. -/
theorem SetState_of_current (d : PrivateODEDoublePendulum) (hw : d.world.UniqueNames)
    (snap : StateMap)
    (h1 : ∀ e ∈ snap, e.1 ∈ d.world.skeletons ∧ e.2 = d.world.configuration e.1)
    (h2 : ∀ p ∈ d.world.skeletons, p ∈ snap.map Prod.fst) :
    d.SetState ⟨some ⟨snap⟩⟩ = (d, []) := by
  have hr : collectRemoveSkels (setStateEntries d.world [] snap).1
      (setStateEntries d.world [] snap).2 = [] := by
    rw [List.eq_nil_iff_forall_not_mem]
    intro p hp
    rw [mem_collectRemoveSkels, setStateEntries_allSkels, setStateEntries_self d.world hw snap [] h1]
      at hp
    exact hp.2 (Or.inr (h2 p hp.1))
  unfold SetState
  dsimp only
  rw [hr, List.foldl_nil, setStateEntries_self d.world hw snap [] h1]


/-- The loop body keeps the names of the world distinct: the skeleton it adds
carries a name no other skeleton of the world has. -/
theorem setStateEntry_uniqueNames (w : World) (hw : w.UniqueNames)
    (e : SkeletonPtr × Configuration) : (setStateEntry w e).UniqueNames := by
  unfold World.UniqueNames
  rw [setStateEntry_name]
  unfold setStateEntry World.setConfiguration World.addSkeleton
  dsimp only
  by_cases h : some e.1 = w.getSkeletonByName (w.name e.1)
  · rw [if_neg (not_not.mpr h)]
    exact hw
  · rw [if_pos h]
    have hsub : ((w.removeSkeleton (w.getSkeletonByName (w.name e.1))).skeletons).Sublist
        w.skeletons := by
      cases w.getSkeletonByName (w.name e.1) with
      | none => exact List.Sublist.refl _
      | some s => exact List.erase_sublist s w.skeletons
    have h1 : ((w.removeSkeleton (w.getSkeletonByName (w.name e.1))).skeletons.map
        w.name).Nodup := List.Nodup.sublist (hsub.map w.name) hw
    split_ifs with h2
    · exact h1
    · dsimp only
      rw [List.map_append, List.map_singleton]
      refine List.Nodup.append h1 (List.nodup_singleton _) ?_
      intro n hn1 hn2
      rw [List.mem_singleton] at hn2
      obtain ⟨q, hq, hqn⟩ := List.mem_map.mp hn1
      have hql : q ∈ w.skeletons := hsub.subset hq
      have hfind : w.getSkeletonByName (w.name e.1) = some q := by
        have := World.getSkeletonByName_self hw hql
        rwa [hqn, hn2] at this
      rw [hfind] at hq
      exact (hw.nodup.mem_erase_iff.mp hq).1 rfl

theorem setStateEntries_uniqueNames : ∀ (snap : StateMap) (w : World) (all : List SkeletonPtr),
    w.UniqueNames → (setStateEntries w all snap).1.UniqueNames
  | [], _, _, h => h
  | e :: rest, w, all, h => by
    rw [setStateEntries]
    exact setStateEntries_uniqueNames rest _ _ (setStateEntry_uniqueNames w h e)

theorem foldl_erase_sublist : ∀ (rs l : List SkeletonPtr), (rs.foldl List.erase l).Sublist l
  | [], l => List.Sublist.refl l
  | r :: rs, l => by
    rw [List.foldl_cons]
    exact (foldl_erase_sublist rs _).trans (List.erase_sublist r l)

/-- The method `SetState` keeps the names of the world distinct. -/
theorem SetState_uniqueNames (d : PrivateODEDoublePendulum) (x : State)
    (hw : d.world.UniqueNames) : (d.SetState x).1.world.UniqueNames := by
  unfold SetState
  cases x.dartState with
  | none => exact hw
  | some state =>
    dsimp only
    rw [foldl_removeSkeleton_eq]
    have h1 := setStateEntries_uniqueNames state.states d.world [] hw
    exact List.Nodup.sublist ((foldl_erase_sublist _ _).map _) h1

theorem SetState_configuration (d : PrivateODEDoublePendulum) (state : DartState) :
    (d.SetState ⟨some state⟩).1.world.configuration =
      (setStateEntries d.world [] state.states).1.configuration := by
  unfold SetState
  dsimp only
  rw [foldl_removeSkeleton_eq]

theorem setStateEntries_append (w : World) (all : List SkeletonPtr) :
    ∀ (pre : StateMap) (e : SkeletonPtr × Configuration),
    (setStateEntries w all (pre ++ [e])).1 = setStateEntry (setStateEntries w all pre).1 e := by
  intro pre
  induction pre generalizing w all with
  | nil => intro e; rfl
  | cons e0 rest ih =>
    intro e
    rw [List.cons_append, setStateEntries, setStateEntries, ih]

theorem mem_of_removed_in_swap (w : World) (hw : w.skeletons.Nodup)
    (e : SkeletonPtr × Configuration) (worldSkel : SkeletonPtr)
    (hf : w.getSkeletonByName (w.name e.1) = some worldSkel) (hne : worldSkel ≠ e.1) :
    worldSkel ∉ (setStateEntry w e).skeletons := by
  unfold setStateEntry World.setConfiguration World.addSkeleton World.removeSkeleton
  dsimp only
  rw [hf]
  have h0 : some e.1 ≠ some worldSkel := fun h => hne (Option.some.inj h).symm
  rw [if_pos h0]
  dsimp only
  have h1 : worldSkel ∉ w.skeletons.erase worldSkel := fun h => (hw.mem_erase_iff.mp h).1 rfl
  split_ifs with h2
  · exact h1
  · intro h3
    rcases List.mem_append.mp h3 with h4 | h4
    · exact h1 h4
    · exact hne (List.mem_singleton.mp h4)

theorem setStateEntry_in_place (w : World) (e : SkeletonPtr × Configuration)
    (hf : w.getSkeletonByName (w.name e.1) = some e.1) :
    (setStateEntry w e).skeletons = w.skeletons := by
  unfold setStateEntry World.setConfiguration
  dsimp only
  rw [hf, if_neg (not_not.mpr rfl)]


/-- C5, as stated, fails: the world holds "A" and "B", the snapshot holds "A" and
a clone of it that carries the same name; after `SetState` only one of the two
is in the world (which one depends on the order of the entries), so the live
set is not the set of the snapshot. -/
theorem SetState_live_set_counterexample :
    Sample.pendulum.world.UniqueNames ∧
    (Sample.snapshotClone.states.map Prod.fst).Nodup ∧
    (Sample.pendulum.SetState ⟨some Sample.snapshotClone⟩).1.world.skeletons = [11] ∧
    (Sample.pendulum.SetState ⟨some ⟨Sample.snapshotClone.states.reverse⟩⟩).1.world.skeletons
      = [10] ∧
    ¬ (∀ p, p ∈ (Sample.pendulum.SetState ⟨some Sample.snapshotClone⟩).1.world.skeletons ↔
        p ∈ Sample.snapshotClone.states.map Prod.fst) := by
  refine ⟨by decide, by decide, by decide, by decide, ?_⟩
  intro h
  exact absurd ((h 10).mpr (by decide)) (by decide)

/-- C5 (amended): for a world whose skeletons have distinct names and a state
that contains a snapshot whose skeletons have pairwise distinct names, after
`SetState` the skeletons in the world are exactly those of the snapshot: each
skeleton of the snapshot is live, each skeleton that was live and is absent from
the snapshot has been removed, and the names in the world are still distinct. -/
theorem SetState_live_set (d : PrivateODEDoublePendulum) (state : DartState)
    (hw : d.world.UniqueNames)
    (hn : (state.states.map (fun e => d.world.name e.1)).Nodup) :
    (∀ p, p ∈ (d.SetState ⟨some state⟩).1.world.skeletons ↔ p ∈ state.states.map Prod.fst) ∧
    (∀ p ∈ d.world.skeletons, p ∉ state.states.map Prod.fst →
      p ∉ (d.SetState ⟨some state⟩).1.world.skeletons) ∧
    (d.SetState ⟨some state⟩).1.world.UniqueNames := by
  have hiff : ∀ p, p ∈ (d.SetState ⟨some state⟩).1.world.skeletons ↔
      p ∈ state.states.map Prod.fst := by
    intro p
    rw [mem_SetState_skeletons d state hw.nodup]
    constructor
    · exact fun h => h.2
    · intro h
      obtain ⟨e, he, rfl⟩ := List.mem_map.mp h
      exact ⟨setStateEntries_mem_key state.states d.world [] hn e he, h⟩
  exact ⟨hiff, fun p _ hp h => hp ((hiff p).mp h), SetState_uniqueNames d _ hw⟩

/-- Witness of C5 (amended): the world holds "A" and "B", the snapshot "A" and
"C"; afterwards the world holds exactly "A" and "C". -/
theorem SetState_live_set_witness :
    Sample.pendulum.world.UniqueNames ∧
    (Sample.snapshotAC.states.map (fun e => Sample.pendulum.world.name e.1)).Nodup ∧
    (Sample.pendulum.SetState ⟨some Sample.snapshotAC⟩).1.world.skeletons = [10, 30] ∧
    ((∀ p, p ∈ (Sample.pendulum.SetState ⟨some Sample.snapshotAC⟩).1.world.skeletons ↔
        p ∈ Sample.snapshotAC.states.map Prod.fst) ∧
      (∀ p ∈ Sample.pendulum.world.skeletons, p ∉ Sample.snapshotAC.states.map Prod.fst →
        p ∉ (Sample.pendulum.SetState ⟨some Sample.snapshotAC⟩).1.world.skeletons) ∧
      (Sample.pendulum.SetState ⟨some Sample.snapshotAC⟩).1.world.UniqueNames) :=
  ⟨by decide, by decide, by decide,
    SetState_live_set Sample.pendulum Sample.snapshotAC (by decide) (by decide)⟩

/-- C6: on a world whose skeletons have distinct names, the snapshot that
`WriteState` takes, handed to `SetState` at once, leaves the backend as it was:
the same skeletons in the world, the same configuration for each of them.  This
holds in whatever order `SetState` meets the entries of the snapshot. -/
theorem SetState_WriteState (d : PrivateODEDoublePendulum) (x : State)
    (hw : d.world.UniqueNames) :
    d.SetState (d.WriteState x) = (d, []) ∧
    ∀ snap : StateMap, snap.Perm (d.WriteState x).get.states →
      d.SetState ⟨some ⟨snap⟩⟩ = (d, []) := by
  have hperm : ∀ snap : StateMap, snap.Perm (d.WriteState x).get.states →
      d.SetState ⟨some ⟨snap⟩⟩ = (d, []) := by
    intro snap hp
    rw [WriteState_eq] at hp
    have hp2 : snap.Perm (d.world.skeletons.foldl
        (fun states skel => assign states skel (d.world.getConfiguration skel)) []) := hp
    apply SetState_of_current d hw snap
    · intro e he
      have he2 := hp2.subset he
      refine ⟨?_, foldl_assign_values d.world _ [] (fun _ h => absurd h (List.not_mem_nil _)) e he2⟩
      have hk := (foldl_assign_keys d.world d.world.skeletons [] e.1).mp
        (List.mem_map_of_mem Prod.fst he2)
      simpa using hk
    · intro p hp3
      have hk := (foldl_assign_keys d.world d.world.skeletons [] p).mpr (Or.inr hp3)
      exact (hp2.map Prod.fst).symm.subset hk
  refine ⟨?_, hperm⟩
  have h := hperm (d.WriteState x).get.states (List.Perm.refl _)
  rw [WriteState_eq] at h ⊢
  exact h

/-- Witness of C6: the sample backend. -/
theorem SetState_WriteState_witness :
    Sample.pendulum.world.UniqueNames ∧
    (Sample.pendulum.SetState (Sample.pendulum.WriteState ⟨none⟩) = (Sample.pendulum, []) ∧
      ∀ snap : StateMap, snap.Perm (Sample.pendulum.WriteState ⟨none⟩).get.states →
        Sample.pendulum.SetState ⟨some ⟨snap⟩⟩ = (Sample.pendulum, [])) :=
  ⟨by decide, SetState_WriteState Sample.pendulum ⟨none⟩ (by decide)⟩

/-- C7: when the state holds no `DartState`, `SetState` changes nothing (world,
configurations, `mapToBodies`, forces and time step are those of before), writes
its diagnostic and returns normally. -/
theorem SetState_without_DartState (d : PrivateODEDoublePendulum) :
    d.SetState ⟨none⟩ = (d, [missingStateMessage]) := rfl


/-- C8: take the entries of the snapshot in the order `SetState` meets them, and
one entry `e` among them.  In the world as it is when `e` comes up: if the
skeleton that carries the name of `e` is another object, that one is removed
and the skeleton of `e` inserted; if it is the skeleton of `e` itself, the
skeleton vector is left as it is.  In both cases, after `SetState` the skeleton
of `e` has the configuration the snapshot records for it. -/
theorem SetState_entry (d : PrivateODEDoublePendulum) (state : DartState)
    (pre post : StateMap) (e : SkeletonPtr × Configuration)
    (hw : d.world.UniqueNames)
    (hk : (state.states.map Prod.fst).Nodup)
    (hs : state.states = pre ++ e :: post) :
    (∀ worldSkel,
      (setStateEntries d.world [] pre).1.getSkeletonByName
        ((setStateEntries d.world [] pre).1.name e.1) = some worldSkel →
      worldSkel ≠ e.1 →
        worldSkel ∈ (setStateEntries d.world [] pre).1.skeletons ∧
        worldSkel ∉ (setStateEntries d.world [] (pre ++ [e])).1.skeletons ∧
        e.1 ∈ (setStateEntries d.world [] (pre ++ [e])).1.skeletons) ∧
    ((setStateEntries d.world [] pre).1.getSkeletonByName
        ((setStateEntries d.world [] pre).1.name e.1) = some e.1 →
      (setStateEntries d.world [] (pre ++ [e])).1.skeletons =
        (setStateEntries d.world [] pre).1.skeletons) ∧
    (d.SetState ⟨some state⟩).1.world.configuration e.1 = e.2 := by
  have hnd := setStateEntries_nodup pre d.world [] hw.nodup
  refine ⟨?_, ?_, ?_⟩
  · intro worldSkel hf hne
    rw [setStateEntries_append]
    exact ⟨World.getSkeletonByName_mem hf, mem_of_removed_in_swap _ hnd e worldSkel hf hne,
      setStateEntry_mem_self _ e⟩
  · intro hf
    rw [setStateEntries_append]
    exact setStateEntry_in_place _ e hf
  · rw [SetState_configuration]
    apply setStateEntries_configuration_of_mem state.states d.world [] hk e
    rw [hs]
    exact List.mem_append_right _ (List.mem_cons_self _ _)

/-- Witness of C8: the world holds "A" and "B"; the snapshot holds a clone of "A",
which replaces "A" and gets the configuration recorded for it. -/
theorem SetState_entry_witness :
    Sample.pendulum.world.UniqueNames ∧
    (Sample.snapshotSwap.states.map Prod.fst).Nodup ∧
    Sample.snapshotSwap.states = [] ++ (11, Sample.config 2) :: [] ∧
    (setStateEntries Sample.pendulum.world [] []).1.getSkeletonByName
      ((setStateEntries Sample.pendulum.world [] []).1.name 11) = some 10 ∧
    ((∀ worldSkel,
      (setStateEntries Sample.pendulum.world [] []).1.getSkeletonByName
        ((setStateEntries Sample.pendulum.world [] []).1.name
          (11, Sample.config 2).1) = some worldSkel →
      worldSkel ≠ (11, Sample.config 2).1 →
        worldSkel ∈ (setStateEntries Sample.pendulum.world [] []).1.skeletons ∧
        worldSkel ∉
          (setStateEntries Sample.pendulum.world [] ([] ++ [(11, Sample.config 2)])).1.skeletons ∧
        (11, Sample.config 2).1 ∈
          (setStateEntries Sample.pendulum.world [] ([] ++ [(11, Sample.config 2)])).1.skeletons) ∧
    ((setStateEntries Sample.pendulum.world [] []).1.getSkeletonByName
        ((setStateEntries Sample.pendulum.world [] []).1.name
          (11, Sample.config 2).1) = some (11, Sample.config 2).1 →
      (setStateEntries Sample.pendulum.world [] ([] ++ [(11, Sample.config 2)])).1.skeletons =
        (setStateEntries Sample.pendulum.world [] []).1.skeletons) ∧
    (Sample.pendulum.SetState ⟨some Sample.snapshotSwap⟩).1.world.configuration
      (11, Sample.config 2).1 = (11, Sample.config 2).2) :=
  ⟨by decide, by decide, rfl, by decide,
    SetState_entry Sample.pendulum Sample.snapshotSwap [] [] (11, Sample.config 2)
      (by decide) (by decide) rfl⟩

/-- C9: whatever the state bag held before, after `WriteState` it holds a
snapshot whose keys are exactly the skeletons now in the world, without
repetition, each with the current configuration of its skeleton; nothing of the
earlier contents is left, the result being that of writing into an empty bag. -/
theorem WriteState_snapshot (d : PrivateODEDoublePendulum) (x : State) :
    (d.WriteState x).dartState = some (d.WriteState x).get ∧
    ((d.WriteState x).get.states.map Prod.fst).Nodup ∧
    (∀ p, p ∈ (d.WriteState x).get.states.map Prod.fst ↔ p ∈ d.world.skeletons) ∧
    (∀ e ∈ (d.WriteState x).get.states, e.2 = d.world.configuration e.1) ∧
    (∀ p ∈ d.world.skeletons, (p, d.world.configuration p) ∈ (d.WriteState x).get.states) ∧
    d.WriteState x = d.WriteState ⟨none⟩ := by
  have hv : ∀ e ∈ (d.WriteState x).get.states, e.2 = d.world.configuration e.1 := by
    rw [WriteState_eq]
    exact foldl_assign_values d.world _ [] (fun _ h => absurd h (List.not_mem_nil _))
  have hkeys : ∀ p, p ∈ (d.WriteState x).get.states.map Prod.fst ↔ p ∈ d.world.skeletons := by
    intro p
    rw [WriteState_eq]
    have := foldl_assign_keys d.world d.world.skeletons [] p
    simpa using this
  refine ⟨?_, ?_, hkeys, hv, ?_, ?_⟩
  · rw [WriteState_eq]
    rfl
  · rw [WriteState_eq]
    exact foldl_assign_nodup d.world _ [] List.nodup_nil
  · intro p hp
    obtain ⟨e, he, hep⟩ := List.mem_map.mp ((hkeys p).mpr hp)
    have h2 := hv e he
    rw [hep] at h2
    rw [← h2, ← hep]
    exact he
  · rw [WriteState_eq, WriteState_eq]

end PrivateODEDoublePendulum

namespace ODEDoublePendulum

open PrivateODEDoublePendulum

/-- C10: with a generalized-force input of the single entry (DOF 1, force 5) and
no time step, `Step` does not get as far as a result: `SetInputs` reads
`dofs[1]` and `forces[1]`, past the end of the one-entry vectors. -/
theorem Step_single_force (dWorldStep : World → Rat → World) (d : PrivateODEDoublePendulum)
    (h : Output) (x : State) :
    d.SetInputs (some ⟨[1], [5]⟩) = .error .outOfRange ∧
    Step dWorldStep d h x ⟨some ⟨[1], [5]⟩, none⟩ = .error .outOfRange := by
  have h1 : d.SetInputs (some ⟨[1], [5]⟩) = .error .outOfRange := by
    unfold SetInputs
    have r0 : readAt [1] 0 = .ok 1 := rfl
    have r1 : readAt [(5 : Rat)] 0 = .ok 5 := rfl
    have r2 : readAt [1] 1 = .error .outOfRange := rfl
    simp only [r0, r1, r2, bind, Except.bind]
    cases storeAt d.forces 1 5 <;> rfl
  refine ⟨h1, ?_⟩
  unfold Step
  rw [h1]
  rfl

end ODEDoublePendulum
end ode

/-! ## Theorems on the step protocol -/

namespace ode

theorem foldl_eraseKey {β : Type} : ∀ (ids : List Nat) (m : List (Nat × β)),
    ids.foldl eraseKey m = m.filter (fun e => decide (e.1 ∉ ids))
  | [], m => by simp
  | k :: ids, m => by
    rw [List.foldl_cons, foldl_eraseKey ids, eraseKey, List.filter_filter]
    apply List.filter_congr
    intro e _
    simp only [List.mem_cons, not_or, ne_eq, Bool.decide_and, Bool.and_comm]

theorem eq_of_key_eq {β : Type} {m : List (Nat × β)} (hk : (m.map Prod.fst).Nodup)
    {e1 e2 : Nat × β} (h1 : e1 ∈ m) (h2 : e2 ∈ m) (h : e1.1 = e2.1) : e1 = e2 :=
  List.inj_on_of_nodup_map hk h1 h2 h

namespace ODEDoublePendulum

/-- The loop of `Write(WorldPoses&)`: one pose for each entry whose body still
exists, in the order of the table, and the IDs of the other entries. -/
theorem collectWorldPoses_eq (w : World) : ∀ (m : List (Nat × BodyNodePtr))
    (entries : List WorldPose) (cleanup : List Nat),
    collectWorldPoses w m (entries, cleanup) =
      (entries ++ (m.filter (fun e => !w.expired e.2)).map (fun e => ⟨e.1⟩),
        cleanup ++ (m.filter (fun e => w.expired e.2)).map Prod.fst)
  | [], entries, cleanup => by simp [collectWorldPoses]
  | e :: rest, entries, cleanup => by
    unfold collectWorldPoses
    dsimp only
    by_cases h : w.expired e.2 = true
    · rw [if_pos h, collectWorldPoses_eq w rest]
      simp [h]
    · rw [if_neg h, collectWorldPoses_eq w rest]
      simp [h]

/-- The poses `Write(WorldPoses&)` produces, whatever the list held before. -/
theorem WriteWorldPoses_entries (d : PrivateODEDoublePendulum) (poses : WorldPoses) :
    (WriteWorldPoses d poses).1.entries =
      (d.mapToBodies.filter (fun e => !d.world.expired e.2)).map (fun e => ⟨e.1⟩) := by
  unfold WriteWorldPoses clear
  dsimp only
  rw [collectWorldPoses_eq]
  simp

/-- The table after `Write(WorldPoses&)`: the entries whose ID is not the ID of
an entry with a destroyed body. -/
theorem WriteWorldPoses_table (d : PrivateODEDoublePendulum) (poses : WorldPoses) :
    (WriteWorldPoses d poses).2.mapToBodies =
      d.mapToBodies.filter (fun e =>
        decide (e.1 ∉ (d.mapToBodies.filter (fun e => d.world.expired e.2)).map Prod.fst)) := by
  unfold WriteWorldPoses clear
  dsimp only
  rw [collectWorldPoses_eq, foldl_eraseKey]
  simp

/-- The table after `Write(WorldPoses&)`, its keys being distinct: the entries
whose body still exists. -/
theorem WriteWorldPoses_table_of_nodup (d : PrivateODEDoublePendulum) (poses : WorldPoses)
    (hk : (d.mapToBodies.map Prod.fst).Nodup) :
    (WriteWorldPoses d poses).2.mapToBodies =
      d.mapToBodies.filter (fun e => !d.world.expired e.2) := by
  rw [WriteWorldPoses_table]
  apply List.filter_congr
  intro e he
  by_cases hx : d.world.expired e.2 = true
  · have hm : e.1 ∈ (d.mapToBodies.filter (fun e => d.world.expired e.2)).map Prod.fst :=
      List.mem_map_of_mem Prod.fst (List.mem_filter.mpr ⟨he, hx⟩)
    simp [hx, hm]
  · have hm : e.1 ∉ (d.mapToBodies.filter (fun e => d.world.expired e.2)).map Prod.fst := by
      intro hin
      obtain ⟨e2, he2, hkey⟩ := List.mem_map.mp hin
      rw [List.mem_filter] at he2
      have := eq_of_key_eq hk he2.1 he hkey
      rw [this] at he2
      exact hx he2.2
    simp [hx, hm]

/-- The table is left as it is by `Write(WorldPoses&)` when no body of the table
has been destroyed. -/
theorem WriteWorldPoses_table_of_alive (d : PrivateODEDoublePendulum) (poses : WorldPoses)
    (ha : ∀ e ∈ d.mapToBodies, d.world.expired e.2 = false) :
    (WriteWorldPoses d poses).2 = d := by
  have hnil : d.mapToBodies.filter (fun e => d.world.expired e.2) = [] := by
    rw [List.filter_eq_nil_iff]
    intro e he
    simp [ha e he]
  have h := WriteWorldPoses_table d poses
  rw [hnil] at h
  simp only [List.map_nil, List.not_mem_nil, not_false_eq_true, decide_True,
    List.filter_true] at h
  have hrest : (WriteWorldPoses d poses).2 =
      { d with mapToBodies := (WriteWorldPoses d poses).2.mapToBodies } := rfl
  rw [hrest, h]

end ODEDoublePendulum
end ode

namespace ode
namespace PrivateODEDoublePendulum

/-- The method `SetInputs`, when it returns, has changed the forces only. -/
theorem SetInputs_ok (d d1 : PrivateODEDoublePendulum) (efforts : Option GeneralizedParameters)
    (h : d.SetInputs efforts = .ok d1) : d1 = { d with forces := d1.forces } := by
  unfold SetInputs at h
  cases efforts with
  | none =>
    injection h with h
    subst h
    rfl
  | some e =>
    simp only [bind, Except.bind, pure, Except.pure] at h
    repeat' split at h
    all_goals first
      | (injection h with h; subst h; rfl)
      | exact absurd h (by simp)

end PrivateODEDoublePendulum

namespace ODEDoublePendulum

open PrivateODEDoublePendulum

/-- The parts of what `Step` returns: the backend is the one the advance left,
pruned by `Write(WorldPoses&)`; the state bag holds the snapshot of the advanced
world; the output bag holds the world poses and the joint positions written
from the advanced backend. -/
theorem Step_ok (dWorldStep : World → Rat → World) (d : PrivateODEDoublePendulum)
    (h : Output) (x : State) (u : Input) (r : PrivateODEDoublePendulum × Output × State)
    (hs : Step dWorldStep d h x u = .ok r) :
    ∃ d1 positions,
      d.SetInputs u.generalizedParameters = .ok d1 ∧
      r.1 = (WriteWorldPoses ((d1.SetTimeStep u.timeStep).Simulate dWorldStep) ⟨[]⟩).2 ∧
      WriteJointPositions r.1 ⟨[], []⟩ = .ok positions ∧
      r.2.1 = ⟨some positions,
        some (WriteWorldPoses ((d1.SetTimeStep u.timeStep).Simulate dWorldStep) ⟨[]⟩).1⟩ ∧
      r.2.2 = ((d1.SetTimeStep u.timeStep).Simulate dWorldStep).WriteState x := by
  unfold Step at hs
  cases h1 : d.SetInputs u.generalizedParameters with
  | error f =>
    rw [h1] at hs
    exact absurd hs (by simp [bind, Except.bind])
  | ok d1 =>
    rw [h1] at hs
    simp only [bind, Except.bind, pure, Except.pure] at hs
    split at hs
    · exact absurd hs (by simp)
    · rename_i positions hp
      injection hs with hs
      subst hs
      exact ⟨d1, positions, rfl, rfl, hp, rfl, rfl⟩

end ODEDoublePendulum
end ode

namespace ode

theorem assign_fresh {β : Type} : ∀ (m : List (Nat × β)) (k : Nat) (v : β),
    (∀ e ∈ m, e.1 ≠ k) → assign m k v = m ++ [(k, v)]
  | [], _, _, _ => rfl
  | e :: rest, k, v, h => by
    unfold assign
    rw [if_neg (h e (List.mem_cons_self _ _)),
      assign_fresh rest k v (fun e2 he2 => h e2 (List.mem_cons_of_mem _ he2))]
    rfl

theorem foldl_foldl_flatMap {α β γ : Type} (f : γ → β → γ) (g : α → List β) :
    ∀ (l : List α) (init : γ),
      l.foldl (fun acc a => (g a).foldl f acc) init = (l.flatMap g).foldl f init
  | [], _ => rfl
  | a :: l, init => by
    rw [List.foldl_cons, foldl_foldl_flatMap f g l, List.flatMap_cons, List.foldl_append]

namespace PrivateODEDoublePendulum

/-- The two loops of `SetBodyMap`, as one traversal of the body nodes of the
skeletons of the world, skeleton after skeleton. -/
theorem SetBodyMap_eq (d : PrivateODEDoublePendulum) :
    d.SetBodyMap =
      (d.world.skeletons.flatMap d.world.bodyNodes).foldl
        (fun d2 bn => { d2 with mapToBodies := assign d2.mapToBodies d2.lastId bn,
                                lastId := d2.lastId + 1 }) d := by
  have houter : d.SetBodyMap =
      d.world.skeletons.foldl
        (fun d1 skel => (d.world.bodyNodes skel).foldl
          (fun d2 bn => { d2 with mapToBodies := assign d2.mapToBodies d2.lastId bn,
                                  lastId := d2.lastId + 1 }) d1) d := by
    unfold SetBodyMap World.getNumSkeletons World.getSkeleton
    rw [← foldl_range_getElem
      (fun d1 skel => (d.world.bodyNodes skel).foldl
        (fun d2 bn => { d2 with mapToBodies := assign d2.mapToBodies d2.lastId bn,
                                lastId := d2.lastId + 1 }) d1) d.world.skeletons d]
    apply List.foldl_ext
    intro acc i _
    cases d.world.skeletons[i]? with
    | none => rfl
    | some skel =>
      dsimp only
      rw [← foldl_range_getElem
        (fun d2 bn => { d2 with mapToBodies := assign d2.mapToBodies d2.lastId bn,
                                lastId := d2.lastId + 1 }) (d.world.bodyNodes skel) acc]
      apply List.foldl_ext
      intro acc2 j _
      cases (d.world.bodyNodes skel)[j]? <;> rfl
  rw [houter, foldl_foldl_flatMap]

/-- The traversal of `SetBodyMap` from a table whose keys are below `lastId`:
the body nodes are appended under the IDs `lastId`, `lastId + 1`, and so on. -/
theorem foldl_assign_bodies : ∀ (bs : List BodyNodePtr) (d : PrivateODEDoublePendulum),
    (∀ e ∈ d.mapToBodies, e.1 < d.lastId) →
    bs.foldl
        (fun d2 bn => { d2 with mapToBodies := assign d2.mapToBodies d2.lastId bn,
                                lastId := d2.lastId + 1 }) d =
      { d with mapToBodies := d.mapToBodies ++ List.enumFrom d.lastId bs,
               lastId := d.lastId + bs.length }
  | [], d, _ => by simp
  | b :: bs, d, h => by
    rw [List.foldl_cons, foldl_assign_bodies bs]
    · dsimp only
      rw [assign_fresh d.mapToBodies d.lastId b (fun e he => Nat.ne_of_lt (h e he))]
      simp only [List.append_assoc, List.singleton_append, List.enumFrom_cons, List.length_cons]
      congr 1
      omega
    · dsimp only
      rw [assign_fresh d.mapToBodies d.lastId b (fun e he => Nat.ne_of_lt (h e he))]
      intro e he
      rcases List.mem_append.mp he with h1 | h1
      · exact Nat.lt_succ_of_lt (h e h1)
      · rw [List.mem_singleton] at h1
        rw [h1]
        exact Nat.lt_succ_self _

/-- The method `SetBodyMap` on a table whose keys are below `lastId`. -/
theorem SetBodyMap_of_lt (d : PrivateODEDoublePendulum)
    (h : ∀ e ∈ d.mapToBodies, e.1 < d.lastId) :
    d.SetBodyMap =
      { d with mapToBodies := d.mapToBodies ++
                 List.enumFrom d.lastId (d.world.skeletons.flatMap d.world.bodyNodes),
               lastId := d.lastId + (d.world.skeletons.flatMap d.world.bodyNodes).length } := by
  rw [SetBodyMap_eq, foldl_assign_bodies _ d h]

end PrivateODEDoublePendulum
end ode

namespace ode
namespace ODEDoublePendulum

open PrivateODEDoublePendulum

theorem readAt_of_lt {α : Type} (v : List α) (i : Nat) (h : i < v.length) :
    readAt v i = .ok (v.get ⟨i, h⟩) := by
  unfold readAt
  rw [List.getElem?_eq_getElem h]
  rfl

/-- The loop of `Write(JointPositions&)` on a vector of `n` positions, every
listed index below `n` having a position in the configuration: it runs through
without a fault, the vector keeps its length, the listed indices below `n` hold
the position of the configuration and the other elements are untouched. -/
theorem fill_positions (n : Nat) (mp : List Rat) : ∀ (dofs : List Nat) (ps : List Rat),
    ps.length = n → (∀ dof ∈ dofs, dof < n → dof < mp.length) →
    ∃ out, dofs.foldlM
        (fun ps dof =>
          if dof < n then do
            let v ← readAt mp dof
            storeAt ps dof v
          else (pure ps : Except Fault (List Rat))) ps = .ok out ∧
      out.length = n ∧
      (∀ i ∈ dofs, i < n → out[i]? = mp[i]?) ∧
      (∀ i, i ∉ dofs → out[i]? = ps[i]?)
  | [], ps, hl, _ => ⟨ps, rfl, hl, fun i hi => absurd hi (List.not_mem_nil i), fun _ _ => rfl⟩
  | dof :: rest, ps, hl, hr => by
    rw [List.foldlM_cons]
    by_cases hd : dof < n
    · have hm : dof < mp.length := hr dof (List.mem_cons_self _ _) hd
      have hp : dof < ps.length := hl ▸ hd
      obtain ⟨out, ho, hlen, hin, hout⟩ := fill_positions n mp rest (ps.set dof (mp.get ⟨dof, hm⟩))
        (by rw [List.length_set]; exact hl)
        (fun i hi => hr i (List.mem_cons_of_mem _ hi))
      refine ⟨out, ?_, hlen, ?_, ?_⟩
      · rw [if_pos hd, readAt_of_lt mp dof hm]
        simp only [bind, Except.bind, storeAt, if_pos hp]
        exact ho
      · intro i hi hin2
        by_cases hir : i ∈ rest
        · exact hin i hir hin2
        · rcases List.mem_cons.mp hi with rfl | h2
          · rw [hout i hir, List.getElem?_set_self hp, List.getElem?_eq_getElem hm]
            rfl
          · exact absurd h2 hir
      · intro i hi
        rw [List.mem_cons, not_or] at hi
        rw [hout i hi.2, List.getElem?_set_ne (Ne.symm hi.1)]
    · obtain ⟨out, ho, hlen, hin, hout⟩ := fill_positions n mp rest ps hl
        (fun i hi => hr i (List.mem_cons_of_mem _ hi))
      refine ⟨out, ?_, hlen, ?_, ?_⟩
      · rw [if_neg hd]
        simp only [bind, Except.bind, pure, Except.pure]
        exact ho
      · intro i hi hin2
        by_cases hir : i ∈ rest
        · exact hin i hir hin2
        · rcases List.mem_cons.mp hi with rfl | h2
          · exact absurd hin2 hd
          · exact absurd h2 hir
      · intro i hi
        rw [List.mem_cons, not_or] at hi
        exact hout i hi.2

theorem resize_clear (v : List Rat) (n : Nat) : resize (clear v) n = List.replicate n 0 := by
  simp [resize, clear]

/-- The method `Write(JointPositions&)`, every listed index below the number of
degrees of freedom having a position in the configuration. -/
theorem WriteJointPositions_ok (d : PrivateODEDoublePendulum) (positions : JointPositions)
    (hr : ∀ dof ∈ (d.world.configuration d.robot).mIndices, dof < d.world.numDofs d.robot →
      dof < (d.world.configuration d.robot).mPositions.length) :
    ∃ out, WriteJointPositions d positions = .ok out ∧
      out.dofs = (d.world.configuration d.robot).mIndices ∧
      out.positions.length = d.world.numDofs d.robot ∧
      (∀ dof ∈ out.dofs, dof < d.world.numDofs d.robot →
        out.positions[dof]? = (d.world.configuration d.robot).mPositions[dof]?) ∧
      (∀ i, i < d.world.numDofs d.robot → i ∉ out.dofs → out.positions[i]? = some 0) := by
  obtain ⟨filled, hf, hlen, hin, hout⟩ := fill_positions (d.world.numDofs d.robot)
    (d.world.configuration d.robot).mPositions (d.world.configuration d.robot).mIndices
    (resize (clear positions.positions) (d.world.numDofs d.robot))
    (by rw [resize_clear, List.length_replicate]) hr
  refine ⟨⟨(d.world.configuration d.robot).mIndices, filled⟩, ?_, rfl, hlen, hin, ?_⟩
  · unfold WriteJointPositions World.getConfigurationPositions
    simp only [bind, Except.bind, pure, Except.pure]
    simp only [bind, Except.bind, pure, Except.pure] at hf
    rw [hf]
  · intro i hi hni
    rw [hout i hni, resize_clear, List.getElem?_replicate, if_pos hi]


/-- The backend as `Step` has it once the advance is done. -/
theorem advanced_eq (dWorldStep : World → Rat → World) (d : PrivateODEDoublePendulum)
    (fs : List Rat) (ts : Option TimeStep) :
    (({ d with forces := fs } : PrivateODEDoublePendulum).SetTimeStep ts).Simulate dWorldStep =
      { d with forces := fs, dt := (d.SetTimeStep ts).dt,
               world := dWorldStep d.world (d.SetTimeStep ts).dt } := by
  cases ts <;> rfl

/-- The snapshot `WriteState` takes depends on the world only. -/
theorem WriteState_congr (d1 d2 : PrivateODEDoublePendulum) (x1 x2 : State)
    (h : d1.world = d2.world) : d1.WriteState x1 = d2.WriteState x2 := by
  rw [WriteState_eq, WriteState_eq, h]

/-- What `Step` returns, part by part, in terms of the backend it was called on. -/
theorem Step_ok_parts (dWorldStep : World → Rat → World) (d : PrivateODEDoublePendulum)
    (h : Output) (x : State) (u : Input) (r : PrivateODEDoublePendulum × Output × State)
    (hs : Step dWorldStep d h x u = .ok r) :
    r.1.world = dWorldStep d.world (d.SetTimeStep u.timeStep).dt ∧
    r.1.dt = (d.SetTimeStep u.timeStep).dt ∧
    r.1.robot = d.robot ∧
    r.1.lastId = d.lastId ∧
    r.1.mapToBodies = d.mapToBodies.filter (fun e =>
      decide (e.1 ∉ (d.mapToBodies.filter (fun e => r.1.world.expired e.2)).map Prod.fst)) ∧
    r.2.1.worldPoses =
      some ⟨(d.mapToBodies.filter (fun e => !r.1.world.expired e.2)).map (fun e => ⟨e.1⟩)⟩ ∧
    (∃ positions, r.2.1.jointPositions = some positions ∧
      WriteJointPositions r.1 ⟨[], []⟩ = .ok positions) ∧
    r.2.2 = r.1.WriteState x ∧
    d.SetInputs u.generalizedParameters = .ok { d with forces := r.1.forces } := by
  obtain ⟨d1, positions, h1, h2, h3, h4, h5⟩ := Step_ok dWorldStep d h x u r hs
  have hd1 := SetInputs_ok d d1 _ h1
  rw [hd1, advanced_eq] at h2 h4 h5
  have hw : r.1.world = dWorldStep d.world (d.SetTimeStep u.timeStep).dt := by rw [h2]; rfl
  have hf : r.1.forces = d1.forces := by rw [h2]; rfl
  refine ⟨hw, by rw [h2]; rfl, by rw [h2]; rfl, by rw [h2]; rfl, ?_, ?_, ⟨positions, ?_, h3⟩,
    ?_, ?_⟩
  · rw [hw, h2, WriteWorldPoses_table]
  · rw [h4, hw]
    dsimp only
    congr 1
    have := WriteWorldPoses_entries
      ({ d with forces := d1.forces, dt := (d.SetTimeStep u.timeStep).dt,
                world := dWorldStep d.world (d.SetTimeStep u.timeStep).dt }) ⟨[]⟩
    cases hwp : (WriteWorldPoses
      ({ d with forces := d1.forces, dt := (d.SetTimeStep u.timeStep).dt,
                world := dWorldStep d.world (d.SetTimeStep u.timeStep).dt }) ⟨[]⟩).1 with
    | mk entries =>
      rw [hwp] at this
      dsimp only at this
      rw [this]
  · rw [h4]
  · rw [h5]
    exact WriteState_congr _ _ _ _ hw.symm
  · rw [hf, h1, hd1]

end ODEDoublePendulum
end ode

namespace ode
namespace PrivateODEDoublePendulum

/-- C11: without a generalized-force input `SetInputs` leaves the backend, and so
the stored forces, as they are; without a time step `SetTimeStep` leaves the
backend, and so the stored time step, as it is; with a time step the stored time
step becomes that value and nothing else changes; a backend just constructed has
the time step 1e-3 and two zero forces. -/
theorem absent_input_kinds (d : PrivateODEDoublePendulum) :
    d.SetInputs none = .ok d ∧
    d.SetTimeStep none = d ∧
    (∀ t : TimeStep, (d.SetTimeStep (some t)).dt = t.dt ∧
      d.SetTimeStep (some t) = { d with dt := t.dt }) ∧
    (∀ (world : World) (robot : SkeletonPtr),
      (PrivateODEDoublePendulum.new world robot).dt = 1 / 1000 ∧
      (PrivateODEDoublePendulum.new world robot).forces = [0, 0] ∧
      ((PrivateODEDoublePendulum.new world robot).SetTimeStep none).dt = 1 / 1000) := by
  refine ⟨rfl, rfl, fun t => ⟨rfl, rfl⟩, fun world robot => ?_⟩
  have hn : PrivateODEDoublePendulum.new world robot =
      { (⟨world, robot, 1 / 1000, [0, 0], [], 0⟩ : PrivateODEDoublePendulum) with
        mapToBodies := [] ++ List.enumFrom 0 (world.skeletons.flatMap world.bodyNodes),
        lastId := 0 + (world.skeletons.flatMap world.bodyNodes).length } := by
    unfold PrivateODEDoublePendulum.new
    rw [SetBodyMap_of_lt _ (fun e he => absurd he (List.not_mem_nil e))]
  rw [hn]
  exact ⟨rfl, rfl, rfl⟩

/-- C14: the backend just constructed has given the body nodes of the skeletons
of the world, taken skeleton after skeleton, the IDs 0, 1, 2 and so on, one ID
for each; the keys of the table are the numbers below `lastId`, each once, so
the next assignment, under the key `lastId`, adds an entry and replaces none. -/
theorem new_mapToBodies (world : World) (robot : SkeletonPtr) :
    (PrivateODEDoublePendulum.new world robot).mapToBodies =
      List.enumFrom 0 (world.skeletons.flatMap world.bodyNodes) ∧
    (PrivateODEDoublePendulum.new world robot).lastId =
      (world.skeletons.flatMap world.bodyNodes).length ∧
    (PrivateODEDoublePendulum.new world robot).mapToBodies.map Prod.fst =
      List.range (PrivateODEDoublePendulum.new world robot).lastId ∧
    ((PrivateODEDoublePendulum.new world robot).mapToBodies.map Prod.fst).Nodup ∧
    (∀ e ∈ (PrivateODEDoublePendulum.new world robot).mapToBodies,
      e.1 < (PrivateODEDoublePendulum.new world robot).lastId) ∧
    (∀ bn : BodyNodePtr,
      assign (PrivateODEDoublePendulum.new world robot).mapToBodies
          (PrivateODEDoublePendulum.new world robot).lastId bn =
        (PrivateODEDoublePendulum.new world robot).mapToBodies ++
          [((PrivateODEDoublePendulum.new world robot).lastId, bn)]) := by
  have hn : PrivateODEDoublePendulum.new world robot =
      { (⟨world, robot, 1 / 1000, [0, 0], [], 0⟩ : PrivateODEDoublePendulum) with
        mapToBodies := [] ++ List.enumFrom 0 (world.skeletons.flatMap world.bodyNodes),
        lastId := 0 + (world.skeletons.flatMap world.bodyNodes).length } := by
    unfold PrivateODEDoublePendulum.new
    rw [SetBodyMap_of_lt _ (fun e he => absurd he (List.not_mem_nil e))]
  have hm : (PrivateODEDoublePendulum.new world robot).mapToBodies =
      List.enumFrom 0 (world.skeletons.flatMap world.bodyNodes) := by
    rw [hn]
    exact List.nil_append _
  have hl : (PrivateODEDoublePendulum.new world robot).lastId =
      (world.skeletons.flatMap world.bodyNodes).length := by
    rw [hn]
    exact Nat.zero_add _
  have hkeys : (PrivateODEDoublePendulum.new world robot).mapToBodies.map Prod.fst =
      List.range (PrivateODEDoublePendulum.new world robot).lastId := by
    rw [hm, hl, List.enumFrom_map_fst, List.range_eq_range']
  have hlt : ∀ e ∈ (PrivateODEDoublePendulum.new world robot).mapToBodies,
      e.1 < (PrivateODEDoublePendulum.new world robot).lastId := by
    intro e he
    have h1 : e.1 ∈ List.range (PrivateODEDoublePendulum.new world robot).lastId :=
      hkeys ▸ List.mem_map_of_mem Prod.fst he
    exact List.mem_range.mp h1
  refine ⟨hm, hl, hkeys, ?_, hlt, ?_⟩
  · rw [hkeys]
    exact List.nodup_range _
  · intro bn
    exact assign_fresh _ _ bn (fun e he => Nat.ne_of_lt (hlt e he))

/-- C15: the advance takes the world and the time step and nothing else: the
stored forces have no part in it, whatever they are the world after `Simulate`
is the same; and whenever `Step` returns, the world it leaves is the step
function applied to the world of before and the time step in force. -/
theorem Simulate_ignores_forces (dWorldStep : World → Rat → World)
    (d : PrivateODEDoublePendulum) (forces : List Rat) :
    (Simulate dWorldStep d).world = dWorldStep d.world d.dt ∧
    (Simulate dWorldStep { d with forces := forces }).world = (Simulate dWorldStep d).world ∧
    (∀ (h : Output) (x : State) (u : Input),
      (ODEDoublePendulum.Step dWorldStep d h x u).map (fun r => r.1.world) =
        (ODEDoublePendulum.Step dWorldStep d h x u).map
          (fun _ => dWorldStep d.world (d.SetTimeStep u.timeStep).dt)) := by
  refine ⟨rfl, rfl, fun h x u => ?_⟩
  cases hs : ODEDoublePendulum.Step dWorldStep d h x u with
  | error f => rfl
  | ok r =>
    have hp := ODEDoublePendulum.Step_ok_parts dWorldStep d h x u r hs
    simp only [Except.map]
    rw [hp.1]

end PrivateODEDoublePendulum
end ode

namespace ode
namespace ODEDoublePendulum

open PrivateODEDoublePendulum

/-- C12: a body of the table has been destroyed before the step, and a destroyed
body stays destroyed through the advance; the keys of the table are distinct.
Then the world poses that `Step` writes have no entry for the ID of that body,
and the table of the backend after the step has no entry under that ID. -/
theorem Step_prunes_destroyed (dWorldStep : World → Rat → World)
    (d : PrivateODEDoublePendulum) (h : Output) (x : State) (u : Input)
    (r : PrivateODEDoublePendulum × Output × State) (entityID : Nat) (bn : BodyNodePtr)
    (hk : (d.mapToBodies.map Prod.fst).Nodup)
    (he : (entityID, bn) ∈ d.mapToBodies)
    (hx : d.world.expired bn = true)
    (hkeep : ∀ w t, w.expired bn = true → (dWorldStep w t).expired bn = true)
    (hs : Step dWorldStep d h x u = .ok r) :
    (∃ poses, r.2.1.worldPoses = some poses ∧ ∀ wp ∈ poses.entries, wp.body ≠ entityID) ∧
    (∀ e ∈ r.1.mapToBodies, e.1 ≠ entityID) := by
  obtain ⟨hw, -, -, -, ht, hp, -, -, -⟩ := Step_ok_parts dWorldStep d h x u r hs
  have hx2 : r.1.world.expired bn = true := by
    rw [hw]
    exact hkeep _ _ hx
  constructor
  · refine ⟨_, hp, ?_⟩
    intro wp hwp hid
    obtain ⟨e, hef, rfl⟩ := List.mem_map.mp hwp
    rw [List.mem_filter] at hef
    have heq : e = (entityID, bn) := eq_of_key_eq hk hef.1 he hid
    rw [heq] at hef
    simp [hx2] at hef
  · intro e hem hid
    rw [ht, List.mem_filter] at hem
    have hin : e.1 ∈ (d.mapToBodies.filter (fun e => r.1.world.expired e.2)).map Prod.fst := by
      rw [hid]
      exact List.mem_map_of_mem Prod.fst (List.mem_filter.mpr ⟨he, hx2⟩)
    simp [hin] at hem

/-- Witness of C12: body node 22, tracked under the ID 3, has been destroyed. -/
theorem Step_prunes_destroyed_witness :
    (Sample.worn.mapToBodies.map Prod.fst).Nodup ∧
    (3, 22) ∈ Sample.worn.mapToBodies ∧
    Sample.worn.world.expired 22 = true ∧
    Step Sample.advance Sample.worn ⟨none, none⟩ ⟨none⟩ Sample.twoForces =
      .ok Sample.wornStepped ∧
    Sample.wornStepped.1.mapToBodies = [(0, 11), (1, 12), (2, 21)] ∧
    Sample.wornStepped.2.1.worldPoses = some ⟨[⟨0⟩, ⟨1⟩, ⟨2⟩]⟩ ∧
    ((∃ poses, Sample.wornStepped.2.1.worldPoses = some poses ∧
        ∀ wp ∈ poses.entries, wp.body ≠ 3) ∧
      (∀ e ∈ Sample.wornStepped.1.mapToBodies, e.1 ≠ 3)) :=
  ⟨by decide, by decide, by decide, rfl, by decide, by decide,
    Step_prunes_destroyed Sample.advance Sample.worn ⟨none, none⟩ ⟨none⟩ Sample.twoForces
      Sample.wornStepped 3 22 (by decide) (by decide) (by decide) (fun _ _ hw => hw) rfl⟩

/-- One call of `Step` that destroys no body of the table leaves the table as it
is. -/
theorem Step_table_of_alive (dWorldStep : World → Rat → World)
    (d : PrivateODEDoublePendulum) (h : Output) (x : State) (u : Input)
    (r : PrivateODEDoublePendulum × Output × State)
    (hs : Step dWorldStep d h x u = .ok r)
    (ha : d.mapToBodies.all (fun e => !r.1.world.expired e.2) = true) :
    r.1.mapToBodies = d.mapToBodies ∧ r.1.lastId = d.lastId := by
  obtain ⟨-, -, -, hl, ht, -, -, -, -⟩ := Step_ok_parts dWorldStep d h x u r hs
  refine ⟨?_, hl⟩
  rw [List.all_eq_true] at ha
  have hnil : d.mapToBodies.filter (fun e => r.1.world.expired e.2) = [] := by
    rw [List.filter_eq_nil_iff]
    intro e he
    have := ha e he
    simpa using this
  rw [hnil] at ht
  rw [ht]
  simp

/-- C13: over any number of consecutive calls of `Step` in the course of which no
body of the table is destroyed, the table stays as it is: the same IDs, each
with the same body, and the same `lastId`. -/
theorem Steps_table_unchanged (dWorldStep : World → Rat → World) :
    ∀ (us : List Input) (d : PrivateODEDoublePendulum) (h : Output) (x : State)
      (r : PrivateODEDoublePendulum × Output × State),
      Steps dWorldStep us d h x = .ok r →
      noneDestroyed dWorldStep us d h x = true →
      r.1.mapToBodies = d.mapToBodies ∧ r.1.lastId = d.lastId
  | [], d, h, x, r, hs, _ => by
    unfold Steps at hs
    injection hs with hs
    subst hs
    exact ⟨rfl, rfl⟩
  | u :: us, d, h, x, r, hs, hn => by
    unfold Steps at hs
    unfold noneDestroyed at hn
    cases h1 : Step dWorldStep d h x u with
    | error f =>
      rw [h1] at hs
      exact absurd hs (by simp)
    | ok r1 =>
      rw [h1] at hs hn
      dsimp only at hs hn
      rw [Bool.and_eq_true] at hn
      have hstep := Step_table_of_alive dWorldStep d h x u r1 h1 hn.1
      have hrest := Steps_table_unchanged dWorldStep us r1.1 r1.2.1 r1.2.2 r hs hn.2
      exact ⟨hrest.1.trans hstep.1, hrest.2.trans hstep.2⟩

/-- Witness of C13: two calls of `Step` on the sample backend. -/
theorem Steps_table_unchanged_witness :
    Steps Sample.advance [Sample.twoForces, Sample.halfStep] Sample.pendulum ⟨none, none⟩ ⟨none⟩ =
      .ok Sample.twiceStepped ∧
    noneDestroyed Sample.advance [Sample.twoForces, Sample.halfStep] Sample.pendulum
      ⟨none, none⟩ ⟨none⟩ = true ∧
    Sample.pendulum.mapToBodies = [(0, 11), (1, 12), (2, 21), (3, 22)] ∧
    (Sample.twiceStepped.1.mapToBodies = Sample.pendulum.mapToBodies ∧
      Sample.twiceStepped.1.lastId = Sample.pendulum.lastId) :=
  ⟨rfl, by decide, by decide,
    Steps_table_unchanged Sample.advance [Sample.twoForces, Sample.halfStep] Sample.pendulum
      ⟨none, none⟩ ⟨none⟩ Sample.twiceStepped rfl (by decide)⟩


/-- C16: when `Step` returns, the world of the backend is the advanced one; the
state bag holds the snapshot of that world: its keys are the skeletons of the
advanced world, each with its configuration there; the output bag holds the
world poses of the bodies that exist in the advanced world and the joint
positions written from the advanced backend; and nothing of what the two bags
held before the call is in the result: any other bags give the same. -/
theorem Step_bags (dWorldStep : World → Rat → World) (d : PrivateODEDoublePendulum)
    (h : Output) (x : State) (u : Input) (r : PrivateODEDoublePendulum × Output × State)
    (hs : Step dWorldStep d h x u = .ok r) :
    r.1.world = dWorldStep d.world (d.SetTimeStep u.timeStep).dt ∧
    r.2.2 = r.1.WriteState x ∧
    r.2.2.dartState = some r.2.2.get ∧
    (∀ p, p ∈ r.2.2.get.states.map Prod.fst ↔ p ∈ r.1.world.skeletons) ∧
    (∀ e ∈ r.2.2.get.states, e.2 = r.1.world.configuration e.1) ∧
    r.2.1.worldPoses =
      some ⟨(d.mapToBodies.filter (fun e => !r.1.world.expired e.2)).map (fun e => ⟨e.1⟩)⟩ ∧
    (∃ positions, r.2.1.jointPositions = some positions ∧
      WriteJointPositions r.1 ⟨[], []⟩ = .ok positions ∧
      positions.dofs = (r.1.world.configuration r.1.robot).mIndices) ∧
    (∀ (h2 : Output) (x2 : State), Step dWorldStep d h2 x2 u = .ok r) := by
  obtain ⟨hw, -, -, -, -, hp, ⟨positions, hj1, hj2⟩, hst, -⟩ :=
    Step_ok_parts dWorldStep d h x u r hs
  have hget : r.2.2.get.states = r.1.world.skeletons.foldl
      (fun states skel => assign states skel (r.1.world.getConfiguration skel)) [] := by
    rw [hst, WriteState_eq]
    rfl
  refine ⟨hw, hst, ?_, ?_, ?_, hp, ⟨positions, hj1, hj2, ?_⟩, ?_⟩
  · rw [hst, WriteState_eq]
    rfl
  · intro p
    rw [hget]
    have := foldl_assign_keys r.1.world r.1.world.skeletons [] p
    simpa using this
  · rw [hget]
    exact foldl_assign_values r.1.world _ [] (fun _ hm => absurd hm (List.not_mem_nil _))
  · unfold WriteJointPositions at hj2
    simp only [bind, Except.bind, pure, Except.pure] at hj2
    split at hj2
    · exact absurd hj2 (by simp)
    · injection hj2 with hj2
      rw [← hj2]
      rfl
  · intro h2 x2
    rw [← hs]
    unfold Step
    simp only [WriteState_congr _ _ x2 x rfl]
    rfl

/-- Witness of C16: the bags hold leftovers of an earlier step; after the call
they hold the snapshot, the poses and the positions of the advanced world, in
which every position is 1/2. -/
theorem Step_bags_witness :
    Step Sample.advance Sample.pendulum ⟨some ⟨[9], [9]⟩, some ⟨[⟨9⟩]⟩⟩
      ⟨some ⟨[(99, Sample.config 9)]⟩⟩ Sample.halfStep = .ok Sample.halfStepped ∧
    Sample.halfStepped.2.1 = ⟨some ⟨[0, 1], [1 / 2, 1 / 2]⟩, some ⟨[⟨0⟩, ⟨1⟩, ⟨2⟩, ⟨3⟩]⟩⟩ ∧
    Sample.halfStepped.2.2.get.states.map Prod.fst = [10, 20] ∧
    (Sample.halfStepped.1.world =
        Sample.advance Sample.pendulum.world (Sample.pendulum.SetTimeStep
          Sample.halfStep.timeStep).dt ∧
      Sample.halfStepped.2.2 = Sample.halfStepped.1.WriteState ⟨some ⟨[(99, Sample.config 9)]⟩⟩ ∧
      Sample.halfStepped.2.2.dartState = some Sample.halfStepped.2.2.get ∧
      (∀ p, p ∈ Sample.halfStepped.2.2.get.states.map Prod.fst ↔
        p ∈ Sample.halfStepped.1.world.skeletons) ∧
      (∀ e ∈ Sample.halfStepped.2.2.get.states,
        e.2 = Sample.halfStepped.1.world.configuration e.1) ∧
      Sample.halfStepped.2.1.worldPoses =
        some ⟨(Sample.pendulum.mapToBodies.filter
          (fun e => !Sample.halfStepped.1.world.expired e.2)).map (fun e => ⟨e.1⟩)⟩ ∧
      (∃ positions, Sample.halfStepped.2.1.jointPositions = some positions ∧
        WriteJointPositions Sample.halfStepped.1 ⟨[], []⟩ = .ok positions ∧
        positions.dofs =
          (Sample.halfStepped.1.world.configuration Sample.halfStepped.1.robot).mIndices) ∧
      (∀ (h2 : Output) (x2 : State),
        Step Sample.advance Sample.pendulum h2 x2 Sample.halfStep = .ok Sample.halfStepped)) :=
  ⟨rfl, rfl, by decide,
    Step_bags Sample.advance Sample.pendulum ⟨some ⟨[9], [9]⟩, some ⟨[⟨9⟩]⟩⟩
      ⟨some ⟨[(99, Sample.config 9)]⟩⟩ Sample.halfStep Sample.halfStepped rfl⟩

/-- C17: on a table with distinct keys, `Write(WorldPoses&)` produces one pose for
each entry whose body still exists, in the order of the table, with the ID of
the entry as its body, and nothing of what the list held before; the table
afterwards holds the entries whose body still exists, as they were, and no
entry whose body has been destroyed; the IDs to erase are those the loop has
collected over the whole table, and they are erased from the table of before;
nothing else of the backend changes. -/
theorem WriteWorldPoses_partition (d : PrivateODEDoublePendulum) (poses : WorldPoses)
    (hk : (d.mapToBodies.map Prod.fst).Nodup) :
    (WriteWorldPoses d poses).1.entries =
      (d.mapToBodies.filter (fun e => !d.world.expired e.2)).map (fun e => ⟨e.1⟩) ∧
    (WriteWorldPoses d poses).2.mapToBodies =
      d.mapToBodies.filter (fun e => !d.world.expired e.2) ∧
    (∀ e ∈ d.mapToBodies, d.world.expired e.2 = false →
      e ∈ (WriteWorldPoses d poses).2.mapToBodies) ∧
    (∀ e ∈ d.mapToBodies, d.world.expired e.2 = true →
      ∀ e2 ∈ (WriteWorldPoses d poses).2.mapToBodies, e2.1 ≠ e.1) ∧
    (∀ e ∈ (WriteWorldPoses d poses).2.mapToBodies,
      e ∈ d.mapToBodies ∧ d.world.expired e.2 = false) ∧
    (WriteWorldPoses d poses).2 =
      { d with mapToBodies :=
          (collectWorldPoses d.world d.mapToBodies ([], [])).2.foldl eraseKey d.mapToBodies } := by
  have ht := WriteWorldPoses_table_of_nodup d poses hk
  refine ⟨WriteWorldPoses_entries d poses, ht, ?_, ?_, ?_, rfl⟩
  · intro e he hx
    rw [ht, List.mem_filter]
    exact ⟨he, by simp [hx]⟩
  · intro e he hx e2 he2 hkey
    rw [ht, List.mem_filter] at he2
    have heq : e2 = e := eq_of_key_eq hk he2.1 he hkey
    rw [heq] at he2
    simp [hx] at he2
  · intro e he
    rw [ht, List.mem_filter] at he
    exact ⟨he.1, by simpa using he.2⟩

/-- Witness of C17: the table of four bodies of which the last has been
destroyed, and a pose list with a leftover. -/
theorem WriteWorldPoses_partition_witness :
    (Sample.worn.mapToBodies.map Prod.fst).Nodup ∧
    (WriteWorldPoses Sample.worn ⟨[⟨9⟩]⟩).1.entries = [⟨0⟩, ⟨1⟩, ⟨2⟩] ∧
    (WriteWorldPoses Sample.worn ⟨[⟨9⟩]⟩).2.mapToBodies = [(0, 11), (1, 12), (2, 21)] ∧
    ((WriteWorldPoses Sample.worn ⟨[⟨9⟩]⟩).1.entries =
        (Sample.worn.mapToBodies.filter
          (fun e => !Sample.worn.world.expired e.2)).map (fun e => ⟨e.1⟩) ∧
      (WriteWorldPoses Sample.worn ⟨[⟨9⟩]⟩).2.mapToBodies =
        Sample.worn.mapToBodies.filter (fun e => !Sample.worn.world.expired e.2) ∧
      (∀ e ∈ Sample.worn.mapToBodies, Sample.worn.world.expired e.2 = false →
        e ∈ (WriteWorldPoses Sample.worn ⟨[⟨9⟩]⟩).2.mapToBodies) ∧
      (∀ e ∈ Sample.worn.mapToBodies, Sample.worn.world.expired e.2 = true →
        ∀ e2 ∈ (WriteWorldPoses Sample.worn ⟨[⟨9⟩]⟩).2.mapToBodies, e2.1 ≠ e.1) ∧
      (∀ e ∈ (WriteWorldPoses Sample.worn ⟨[⟨9⟩]⟩).2.mapToBodies,
        e ∈ Sample.worn.mapToBodies ∧ Sample.worn.world.expired e.2 = false) ∧
      (WriteWorldPoses Sample.worn ⟨[⟨9⟩]⟩).2 =
        { Sample.worn with mapToBodies :=
            ((collectWorldPoses Sample.worn.world Sample.worn.mapToBodies ([], [])).2.foldl
              eraseKey Sample.worn.mapToBodies) }) :=
  ⟨by decide, by decide, by decide,
    WriteWorldPoses_partition Sample.worn ⟨[⟨9⟩]⟩ (by decide)⟩

/-- C19: when every listed index below the number of degrees of freedom has a
position in the configuration, `Write(JointPositions&)` returns without any
access out of bounds; the indices written out are those of the configuration,
there are as many positions as degrees of freedom, each listed index below that
number holds the position of the configuration at that index, the indices at or
above it leave no trace and the positions not listed are zero.  For the
configuration of all degrees of freedom in their order the positions written
out are those of the configuration. -/
theorem WriteJointPositions_filled (d : PrivateODEDoublePendulum) (positions : JointPositions)
    (hr : ∀ dof ∈ (d.world.configuration d.robot).mIndices, dof < d.world.numDofs d.robot →
      dof < (d.world.configuration d.robot).mPositions.length) :
    ∃ out, WriteJointPositions d positions = .ok out ∧
      out.dofs = (d.world.getConfigurationPositions d.robot).mIndices ∧
      out.positions.length = d.world.numDofs d.robot ∧
      (∀ dof ∈ out.dofs, dof < d.world.numDofs d.robot →
        out.positions[dof]? = (d.world.getConfigurationPositions d.robot).mPositions[dof]?) ∧
      (∀ i, i < d.world.numDofs d.robot → i ∉ out.dofs → out.positions[i]? = some 0) ∧
      (∀ i, d.world.numDofs d.robot ≤ i → out.positions[i]? = none) ∧
      ((d.world.configuration d.robot).mIndices = List.range (d.world.numDofs d.robot) →
        (d.world.configuration d.robot).mPositions.length = d.world.numDofs d.robot →
        out.positions = (d.world.configuration d.robot).mPositions) := by
  obtain ⟨out, ho, hd, hl, hin, hz⟩ := WriteJointPositions_ok d positions hr
  refine ⟨out, ho, hd, hl, hin, hz, ?_, ?_⟩
  · intro i hi
    exact List.getElem?_eq_none (hl ▸ hi)
  · intro hfull hlen
    apply List.ext_getElem?
    intro i
    by_cases hi : i < d.world.numDofs d.robot
    · exact hin i (by rw [hd, hfull]; exact List.mem_range.mpr hi) hi
    · rw [List.getElem?_eq_none (by omega), List.getElem?_eq_none (by omega)]

/-- Witness of C19: two degrees of freedom, the configuration lists the indices
0, 1 and 5; the index 5 is skipped. -/
theorem WriteJointPositions_filled_witness :
    (∀ dof ∈ (Sample.odd.world.configuration Sample.odd.robot).mIndices,
      dof < Sample.odd.world.numDofs Sample.odd.robot →
      dof < (Sample.odd.world.configuration Sample.odd.robot).mPositions.length) ∧
    WriteJointPositions Sample.odd ⟨[7], [8, 8, 8]⟩ = .ok ⟨[0, 1, 5], [3, 4]⟩ ∧
    (∃ out, WriteJointPositions Sample.odd ⟨[7], [8, 8, 8]⟩ = .ok out ∧
      out.dofs = (Sample.odd.world.getConfigurationPositions Sample.odd.robot).mIndices ∧
      out.positions.length = Sample.odd.world.numDofs Sample.odd.robot ∧
      (∀ dof ∈ out.dofs, dof < Sample.odd.world.numDofs Sample.odd.robot →
        out.positions[dof]? =
          (Sample.odd.world.getConfigurationPositions Sample.odd.robot).mPositions[dof]?) ∧
      (∀ i, i < Sample.odd.world.numDofs Sample.odd.robot → i ∉ out.dofs →
        out.positions[i]? = some 0) ∧
      (∀ i, Sample.odd.world.numDofs Sample.odd.robot ≤ i → out.positions[i]? = none) ∧
      ((Sample.odd.world.configuration Sample.odd.robot).mIndices =
          List.range (Sample.odd.world.numDofs Sample.odd.robot) →
        (Sample.odd.world.configuration Sample.odd.robot).mPositions.length =
          Sample.odd.world.numDofs Sample.odd.robot →
        out.positions = (Sample.odd.world.configuration Sample.odd.robot).mPositions)) :=
  ⟨by decide, rfl,
    WriteJointPositions_filled Sample.odd ⟨[7], [8, 8, 8]⟩ (by decide)⟩

end ODEDoublePendulum
end ode

namespace RequestFeatures

/-- C18: a backend that declares every requested capability, so that `Verify`
succeeds, and does not expose the generic implementation interface: `From` gets
a null pointer from `QueryInterface` and calls `InitiateEngine` through it; the
same with an empty capability set, for which `Verify` succeeds on any handle. -/
theorem From_null_interface :
    Verify Sample.steppingAndPoses Sample.bare = true ∧
    Sample.bare.implementation = none ∧
    (From Sample.steppingAndPoses Sample.bare 0).returned = .nullDereference ∧
    (From Sample.steppingAndPoses Sample.bare 0).calls = [.Verify, .QueryInterface] ∧
    Verify [] Sample.bare = true ∧
    (From [] Sample.bare 0).returned = .nullDereference :=
  ⟨by decide, rfl, rfl, rfl, by decide, rfl⟩

end RequestFeatures

end ignition.physics
